import Mathlib

/-!
# arclite extraction orchestrator: shallow embedding and verified properties

Embedding of `src/arclite/extract.cpp` and of the detection part of
`src/arclite/open.cpp`.

* C++ `wstring` is a list of characters, `UInt32` indices are natural numbers.
* Everything outside the plugin (Win32 file API, the dialogs of `ui.hpp`) is an
  environment `Env`: every call is answered from the history of calls made so far,
  and every call is appended to the job's `trace`.
* References shared by the whole job (`bool& ignore_errors`, `ErrorLog& error_log`,
  `OverwriteOption& oo`, `Error& error`, the progress counters) are fields of one
  state record `Job`, passed explicitly. So are the members `file_path` and `file_info` of
  `ArchiveExtractor`: a `FileExtractStream` holds references to them, not copies, and
  reads them from the `Job` it is called in.
* A C++ exception is the `Res.fail` outcome; `while (true)` loops and recursion take
  a fuel argument and give `none` when the fuel runs out; an out-of-range
  `file_list[i]` (undefined behaviour in C++) gives `none` as well.
* `long_path` normalisation and progress painting (`update_ui`) are not modelled.
-/

namespace Arclite

/-! ## Data model -/

abbrev wstring := List Char

/-- Win32 file handle; `none` is `INVALID_HANDLE_VALUE`. -/
abbrev HANDLE := Option Nat

def INVALID_HANDLE_VALUE : HANDLE := none

def S_OK : Nat := 0
def E_ABORT : Nat := 0x80004004
def ERROR_ALREADY_EXISTS : Nat := 183
def ERROR_INVALID_HANDLE : Nat := 6
def FILE_ATTRIBUTE_NORMAL : Nat := 0x80

/-- The Win32 SDK conversion of a last-error value to an HRESULT (a 32-bit value, here a
natural number below 2^32): zero and values with the top bit set are kept, any other value
is masked to 16 bits and tagged with the Win32 facility and the failure bit. -/
def HRESULT_FROM_WIN32 (x : Nat) : Nat :=
  if x = 0 ∨ 0x80000000 ≤ x then x else (x % 0x10000) + 0x80070000

/-- Exception object of the plugin: an HRESULT code. -/
structure Error where
  code : Nat
deriving DecidableEq, Repr

/-- Modelled from the spec: the `FileInfo` record is declared in `archive.hpp`, which is
not under src/. Spec section 3, FileEntry: name, attributes bitmask, creation/access/modify
timestamps, size, `is_directory` flag, index of parent entry. -/
structure FileInfo where
  name : wstring
  attr : Nat
  ctime : Nat
  atime : Nat
  mtime : Nat
  size : Nat
  parent : Nat
  is_dir : Bool
deriving DecidableEq, Repr

abbrev FileList := List FileInfo

/-- Modelled from the spec: the `Archive` class is declared in `archive.hpp`. Spec section 3,
FileTree: an ordered collection of FileEntry indexable by position, supporting
"children of index X" queries; `file_list_index` (cleared by `Archive::close` in
`open.cpp`) holds the archive-defined ordering of the entries. -/
structure Archive where
  file_list : FileList
  file_list_index : List Nat
deriving DecidableEq, Repr

/-- Modelled from the spec: `Archive::get_dir_list` is defined outside src/. Spec section 3:
"children of index X" range query, siblings in archive-defined order. -/
def get_dir_list (ar : Archive) (file_index : Nat) : List Nat :=
  ar.file_list_index.filter fun i =>
    match ar.file_list[i]? with
    | some fi => fi.parent == file_index
    | none => false

/-- Modelled from the spec: `add_trailing_slash` is defined in `utils`, not under src/:
it appends a backslash unless the path already ends with one. -/
def add_trailing_slash (path : wstring) : wstring :=
  if path.getLast? = some '\\' then path else path ++ ['\\']

inductive RetryDialogResult
  | rdrRetry
  | rdrIgnore
  | rdrIgnoreAll
  | rdrCancel
deriving DecidableEq, Repr

inductive OverwriteOption
  | ooAsk
  | ooOverwrite
  | ooSkip
deriving DecidableEq, Repr

inductive OverwriteAction
  | oaYes
  | oaYesAll
  | oaNo
  | oaNoAll
  | oaCancel
deriving DecidableEq, Repr

/-- One call made to the outside world. `enter` is a ghost marker (no effect in the
program) recording that `prepare_extract` was entered for a file index. -/
inductive Event
  | enter (file_index : Nat)
  | error_retry_ignore_dialog (path : wstring) (error : Error) (can_retry : Bool)
  | overwrite_dialog (path : wstring)
  | CreateDirectoryW (path : wstring)
  | FindFirstFileW (path : wstring)
  | FindClose
  | SetFileAttributesW (path : wstring) (attr : Nat)
  | CreateFileW (path : wstring)
  | WriteFile (h : HANDLE) (data : List Nat) (size : Nat)
  | SetFilePointerEx (h : HANDLE) (position : Nat)
  | SetEndOfFile (h : HANDLE)
  | CloseHandle (h : HANDLE)
  | DeleteFileW (path : wstring)
  | File_open (path : wstring)
  | SetFileTime (h : HANDLE) (ctime : Nat) (atime : Nat) (mtime : Nat)
deriving DecidableEq, Repr

/-- The outside world. Each field answers one kind of call from the history of calls
made so far and the arguments of the call. A failing Win32 call answers with the value
`GetLastError` would give. -/
structure Env where
  error_retry_ignore_dialog : List Event → wstring → Error → Bool → RetryDialogResult
  overwrite_dialog : List Event → wstring → OverwriteAction
  /-- `none`: the call returned TRUE; `some code`: FALSE with that last error. -/
  CreateDirectoryW : List Event → wstring → Option Nat
  /-- Whether a file of that path is found. -/
  FindFirstFileW : List Event → wstring → Bool
  SetFileAttributesW : List Event → wstring → Nat → Option Nat
  /-- Either a last-error value or a valid handle number. -/
  CreateFileW : List Event → wstring → Except Nat Nat
  /-- Either a last-error value or the number of bytes written. -/
  WriteFile : List Event → Nat → List Nat → Nat → Except Nat Nat
  SetFilePointerEx : List Event → Nat → Nat → Option Nat
  SetEndOfFile : List Event → Nat → Option Nat
  /-- Opening of an existing path by the `File` class: a last-error value or a handle. -/
  File_open : List Event → wstring → Except Nat Nat
  /-- `SetFileTime` on a handle with creation, access and modification time. -/
  SetFileTime : List Event → Nat → Nat → Nat → Nat → Option Nat

/-- Counters of `ExtractProgress`. -/
structure ExtractProgress where
  completed : Nat
  total : Nat
  file_path : wstring
  file_completed : Nat
  file_total : Nat
deriving DecidableEq, Repr

/-- Modelled from the spec: `ErrorLog` is declared outside src/. Spec section 3:
an ErrorLogEntry is a (path, error-detail) pair; section 4.3: the log is append-only. -/
abbrev ErrorLog := List (wstring × Error)

/-- Modelled from the spec: `ErrorLog::add` is defined outside src/. Spec section 4.3:
"Every Ignore outcome appends an ErrorLogEntry". -/
def ErrorLog.add (error_log : ErrorLog) (path : wstring) (error : Error) : ErrorLog :=
  error_log ++ [(path, error)]

/-- Mutable state of one extraction job. -/
structure Job where
  ignore_errors : Bool
  error_log : ErrorLog
  /-- The `OverwriteOption& oo` of the extractor. -/
  oo : OverwriteOption
  /-- The `Error& error` filled by the COM error handler; `none` is the empty error. -/
  error : Option Error
  progress : ExtractProgress
  /-- The `file_path` member of `ArchiveExtractor` (path of the current file). -/
  file_path : wstring
  /-- The `file_info` member of `ArchiveExtractor` (entry of the current file). -/
  file_info : FileInfo
  trace : List Event
deriving DecidableEq, Repr

/-- Outcome of a call that may throw: normal return with a value, or a thrown `Error`;
both carry the state reached. -/
inductive Res (α : Type)
  | ok (a : α) (st : Job)
  | fail (e : Error) (st : Job)
deriving DecidableEq, Repr

def Res.job {α : Type} : Res α → Job
  | .ok _ st => st
  | .fail _ st => st

def Job.emit (st : Job) (ev : Event) : Job :=
  { st with trace := st.trace ++ [ev] }

/-! ## Error policy (`extract.cpp` lines 9-48) -/

def retry_or_ignore_error (env : Env) (path : wstring) (error : Error) (st : Job) : Res Bool :=
  let finish (ignore : Bool) (st : Job) : Res Bool :=
    if ignore then
      .ok true { st with error_log := st.error_log.add path error }
    else
      .ok false st
  let ignore := st.ignore_errors
  if !ignore then
    let st1 := st.emit (.error_retry_ignore_dialog path error true)
    match env.error_retry_ignore_dialog st.trace path error true with
    | .rdrRetry => finish ignore st1
    | .rdrIgnore => finish true st1
    | .rdrIgnoreAll => finish true { st1 with ignore_errors := true }
    | .rdrCancel => .fail ⟨E_ABORT⟩ st1
  else
    finish ignore st

def ignore_error (env : Env) (path : wstring) (error : Error) (st : Job) : Res Unit :=
  let finish (st : Job) : Res Unit :=
    .ok () { st with error_log := st.error_log.add path error }
  if !st.ignore_errors then
    let st1 := st.emit (.error_retry_ignore_dialog path error false)
    match env.error_retry_ignore_dialog st.trace path error false with
    | .rdrRetry => finish st1
    | .rdrIgnore => finish st1
    | .rdrIgnoreAll => finish { st1 with ignore_errors := true }
    | .rdrCancel => .fail ⟨E_ABORT⟩ st1
  else
    finish st

/-- Modelled from the spec: the macro `CHECK_SYS` is defined outside src/. A failed check
throws an `Error` carrying the last OS error (spec section 7, "Recoverable I/O failure"). -/
def CHECK_SYS_error (last_error : Nat) : Error :=
  ⟨HRESULT_FROM_WIN32 last_error⟩

/-- Modelled from the spec: the macro `COM_ERROR_HANDLER_END` is defined outside src/. Spec
section 5: "an abort decision unwinds via a distinguished error value that every layer
propagates"; the callback stores the caught error in its `error` member and returns the
error code as its HRESULT. -/
def COM_ERROR_HANDLER_END (e : Error) (st : Job) : Nat × Job :=
  (e.code, { st with error := some e })

/-! ## Preparation walk (`extract.cpp` lines 384-412, 474-483) -/

/-- The `while (true)` loop of `prepare_extract` (lines 390-402). -/
def prepare_extract_create_dir (env : Env) (dir_path : wstring) : Nat → Job → Option (Res Unit)
  | 0, _ => none
  | fuel + 1, st =>
    let st1 := st.emit (.CreateDirectoryW dir_path)
    match env.CreateDirectoryW st.trace dir_path with
    | none => some (.ok () st1)
    | some last_error =>
      if last_error = ERROR_ALREADY_EXISTS then
        some (.ok () st1)
      else
        match retry_or_ignore_error env dir_path (CHECK_SYS_error last_error) st1 with
        | .ok true st2 => some (.ok () st2)
        | .ok false st2 => prepare_extract_create_dir env dir_path fuel st2
        | .fail e st2 => some (.fail e st2)

/-- One step of a `for_each`/`for` loop whose body may throw or run out of fuel. -/
def for_each_step (body : Nat → List Nat → Job → Option (Res (List Nat)))
    (acc : Option (Res (List Nat))) (file_index : Nat) : Option (Res (List Nat)) :=
  match acc with
  | some (.ok indices st) => body file_index indices st
  | other => other

/-- `Archive::prepare_extract`; `indices` is the `list<UInt32>& indices` reference, returned
as the value. -/
def prepare_extract (env : Env) (ar : Archive) :
    Nat → Nat → wstring → List Nat → Job → Option (Res (List Nat))
  | 0, _, _, _, _ => none
  | fuel + 1, file_index, parent_dir, indices, st =>
    match ar.file_list[file_index]? with
    | none => none
    | some file_info =>
      let st0 := st.emit (.enter file_index)
      if file_info.is_dir then
        let dir_path := add_trailing_slash parent_dir ++ file_info.name
        match prepare_extract_create_dir env dir_path fuel st0 with
        | none => none
        | some (.fail e st1) => some (.fail e st1)
        | some (.ok () st1) =>
          (get_dir_list ar file_index).foldl
            (for_each_step fun file_index indices st =>
              prepare_extract env ar fuel file_index dir_path indices st)
            (some (.ok indices st1))
      else
        some (.ok (indices ++ [file_index]) st0)

/-- The loop of `Archive::extract` over the selected roots (lines 475-478). -/
def extract_prepare (env : Env) (ar : Archive) (fuel : Nat) (src_indices : List Nat)
    (dst_dir : wstring) (st : Job) : Option (Res (List Nat)) :=
  src_indices.foldl
    (for_each_step fun file_index indices st =>
      prepare_extract env ar fuel file_index dst_dir indices st)
    (some (.ok [] st))

/-- The `indices` vector that `Archive::extract` passes to `in_arc->Extract`
(lines 474-483): the collected list copied into a vector and sorted with `std::sort`.
The state `st` is the job state after `prepare_dst_dir`. -/
def extract_indices (env : Env) (ar : Archive) (fuel : Nat) (src_indices : List Nat)
    (dst_dir : wstring) (st : Job) : Option (Res (List Nat)) :=
  match extract_prepare env ar fuel src_indices dst_dir st with
  | none => none
  | some (.fail e st1) => some (.fail e st1)
  | some (.ok file_indices st1) =>
    some (.ok (file_indices.insertionSort (· ≤ ·)) st1)

/-! ## Output stream (`extract.cpp` lines 141-210) -/

/-- `SetFilePointerEx`: fails with `ERROR_INVALID_HANDLE` on `INVALID_HANDLE_VALUE`,
otherwise answered by the environment. -/
def SetFilePointerEx (env : Env) (h : HANDLE) (position : Nat) (st : Job) : Option Nat × Job :=
  let st1 := st.emit (.SetFilePointerEx h position)
  match h with
  | none => (some ERROR_INVALID_HANDLE, st1)
  | some n => (env.SetFilePointerEx st.trace n position, st1)

/-- `SetEndOfFile`: fails with `ERROR_INVALID_HANDLE` on `INVALID_HANDLE_VALUE`. -/
def SetEndOfFile (env : Env) (h : HANDLE) (st : Job) : Option Nat × Job :=
  let st1 := st.emit (.SetEndOfFile h)
  match h with
  | none => (some ERROR_INVALID_HANDLE, st1)
  | some n => (env.SetEndOfFile st.trace n, st1)

/-- `WriteFile`: fails with `ERROR_INVALID_HANDLE` on `INVALID_HANDLE_VALUE`. -/
def WriteFile (env : Env) (h : HANDLE) (data : List Nat) (size : Nat) (st : Job) :
    Except Nat Nat × Job :=
  let st1 := st.emit (.WriteFile h data size)
  match h with
  | none => (.error ERROR_INVALID_HANDLE, st1)
  | some n => (env.WriteFile st.trace n data size, st1)

def ExtractProgress.on_create_file (p : ExtractProgress) (file_path : wstring) (size : Nat) :
    ExtractProgress :=
  { p with file_path := file_path, file_total := size, file_completed := 0 }

def ExtractProgress.on_write_file (p : ExtractProgress) (size_written : Nat) : ExtractProgress :=
  { p with file_completed := (p.file_completed + size_written) % 2 ^ 64 }

/-- The members of `FileExtractStream` that the object owns (lines 143, 150). The members
`file_path` and `file_info` (lines 144-145) are references: the only constructor call
(line 305) binds them to the members `file_path` and `file_info` of the `ArchiveExtractor`,
which every `GetStream` call overwrites (lines 257-265). They are therefore not copied into
the stream; every method reads them from the job state it is called in, as it reads
`ignore_errors`, `error_log` and `progress`. -/
structure FileExtractStream where
  h_file : HANDLE
  error_state : Bool
deriving DecidableEq, Repr

/-- The `while (true)` loop of the constructor (lines 155-166). The arguments `h_file` and
`error_state` are the members as they stand when an iteration starts; the result is the
pair of members when the loop is left. -/
def FileExtractStream.open_loop (env : Env) (file_path : wstring) :
    Nat → Bool → Job → Option (Res (HANDLE × Bool))
  | 0, _, _ => none
  | fuel + 1, error_state, st =>
    let st1 := st.emit (.CreateFileW file_path)
    match env.CreateFileW st.trace file_path with
    | .ok h => some (.ok (some h, error_state) st1)
    | .error last_error =>
      match retry_or_ignore_error env file_path (CHECK_SYS_error last_error) st1 with
      | .ok true st2 => some (.ok (INVALID_HANDLE_VALUE, true) st2)
      | .ok false st2 => FileExtractStream.open_loop env file_path fuel true st2
      | .fail e st2 => some (.fail e st2)

/-- The constructor `FileExtractStream::FileExtractStream` (lines 153-167), as called at
line 305 with the extractor members `file_path` and `file_info`; nothing in the constructor
assigns to them. -/
def FileExtractStream.new (env : Env) (fuel : Nat) (st : Job) : Option (Res FileExtractStream) :=
  let st1 := { st with progress := st.progress.on_create_file st.file_path st.file_info.size }
  match FileExtractStream.open_loop env st.file_path fuel false st1 with
  | none => none
  | some (.fail e st2) => some (.fail e st2)
  | some (.ok (h_file, error_state) st2) =>
    some (.ok { h_file := h_file, error_state := error_state } st2)

/-- The destructor `FileExtractStream::~FileExtractStream` (lines 168-174). The path passed
to `DeleteFileW` is read through the reference `file_path`, that is the member of the
extractor as it stands when the destructor runs. -/
def FileExtractStream.destroy (s : FileExtractStream) (st : Job) : Job :=
  let st1 := st.emit (.SetEndOfFile s.h_file)
  let st2 := if s.h_file ≠ INVALID_HANDLE_VALUE then st1.emit (.CloseHandle s.h_file) else st1
  if s.error_state then st2.emit (.DeleteFileW st.file_path) else st2

/-- Result of `Write`: the HRESULT, the value stored in `*processedSize`, the stream and
the job state after the call. -/
structure WriteResult where
  hresult : Nat
  processedSize : Nat
  stream : FileExtractStream
  job : Job
deriving DecidableEq, Repr

/-- `FileExtractStream::Write` (lines 180-198). The path given to `ignore_error` is read
through the reference `file_path`, that is the member of the extractor as it stands when
`Write` is called. -/
def FileExtractStream.Write (env : Env) (s : FileExtractStream) (data : List Nat) (size : Nat)
    (st : Job) : WriteResult :=
  if s.error_state then
    { hresult := S_OK, processedSize := size, stream := s, job := st }
  else
    match WriteFile env s.h_file data size st with
    | (.ok written, st1) =>
      { hresult := S_OK, processedSize := written, stream := s,
        job := { st1 with progress := st1.progress.on_write_file written } }
    | (.error last_error, st1) =>
      let s1 := { s with error_state := true }
      match ignore_error env st.file_path (CHECK_SYS_error last_error) st1 with
      | .ok () st2 =>
        { hresult := S_OK, processedSize := size, stream := s1,
          job := { st2 with progress := st2.progress.on_write_file size } }
      | .fail e st2 =>
        let r := COM_ERROR_HANDLER_END e st2
        { hresult := r.1, processedSize := size, stream := s1, job := r.2 }

/-- `FileExtractStream::allocate` (lines 200-209); `file_info` is read through the
reference, that is from the extractor. -/
def FileExtractStream.allocate (env : Env) (s : FileExtractStream) (st : Job) : Res Unit :=
  if st.file_info.size ≠ 0 then
    match SetFilePointerEx env s.h_file st.file_info.size st with
    | (some last_error, st1) => .fail (CHECK_SYS_error last_error) st1
    | (none, st1) =>
      match SetEndOfFile env s.h_file st1 with
      | (some last_error, st2) => .fail (CHECK_SYS_error last_error) st2
      | (none, st2) =>
        match SetFilePointerEx env s.h_file 0 st2 with
        | (some last_error, st3) => .fail (CHECK_SYS_error last_error) st3
        | (none, st3) => .ok () st3
  else
    .ok () st

/-! ## Stream callback (`extract.cpp` lines 250-312) -/

/-- `NArchive::NExtract::NAskMode::kExtract`. -/
def kExtract : Nat := 0

/-- The parent walk of `GetStream` (lines 260-264): `file_path` is prefixed with the name of
every ancestor until `parent_index` equals `src_dir_index`. -/
def GetStream_path (file_list : FileList) (src_dir_index : Nat) :
    Nat → Nat → wstring → Option wstring
  | 0, _, _ => none
  | fuel + 1, parent_index, file_path =>
    if parent_index ≠ src_dir_index then
      match file_list[parent_index]? with
      | none => none
      | some file_info =>
        GetStream_path file_list src_dir_index fuel file_info.parent
          (file_info.name ++ ['\\'] ++ file_path)
    else
      some file_path

/-- What lines 267-303 of `GetStream` decide about an existing destination. -/
inductive OverwriteDecision
  /-- Go on to create the output stream. -/
  | proceed
  /-- Leave with `*outStream = nullptr; return S_OK`. -/
  | skip
  /-- Leave with `return E_ABORT`. -/
  | abort
deriving DecidableEq, Repr

/-- Lines 267-303 of `GetStream`: look for the destination and resolve the overwrite
policy. -/
def GetStream_overwrite (env : Env) (file_path : wstring) (st : Job) : OverwriteDecision × Job :=
  let st1 := st.emit (.FindFirstFileW file_path)
  if env.FindFirstFileW st.trace file_path then
    let st2 := st1.emit .FindClose
    let clear (st : Job) : OverwriteDecision × Job :=
      (.proceed, st.emit (.SetFileAttributesW file_path FILE_ATTRIBUTE_NORMAL))
    match st2.oo with
    | .ooAsk =>
      let st3 := st2.emit (.overwrite_dialog file_path)
      match env.overwrite_dialog st2.trace file_path with
      | .oaYes => clear st3
      | .oaYesAll => clear { st3 with oo := .ooOverwrite }
      | .oaNo => (.skip, st3)
      | .oaNoAll => (.skip, { st3 with oo := .ooSkip })
      | .oaCancel => (.abort, st3)
    | .ooOverwrite => clear st2
    | .ooSkip => (.skip, st2)
  else
    (.proceed, st1)

/-- Lines 305-310 of `GetStream`: create the stream object, allocate, hand it out. An
exception of the constructor leaves no object behind; an exception of `allocate` releases
the `ComObject`, which runs the destructor. -/
def GetStream_create (env : Env) (fuel : Nat) (st : Job) :
    Option (Nat × Option FileExtractStream × Job) :=
  match FileExtractStream.new env fuel st with
  | none => none
  | some (.fail e st1) =>
    let r := COM_ERROR_HANDLER_END e st1
    some (r.1, none, r.2)
  | some (.ok s st1) =>
    match s.allocate env st1 with
    | .fail e st2 =>
      let r := COM_ERROR_HANDLER_END e (s.destroy st2)
      some (r.1, none, r.2)
    | .ok () st2 => some (S_OK, some s, st2)

/-- Lines 267-310 of `GetStream`, entered with the members `file_path` and `file_info`
already set in the state: resolve the overwrite policy, then create the stream. -/
def GetStream_body (env : Env) (fuel : Nat) (st : Job) :
    Option (Nat × Option FileExtractStream × Job) :=
  match GetStream_overwrite env st.file_path st with
  | (.abort, st1) => some (E_ABORT, none, st1)
  | (.skip, st1) => some (S_OK, none, st1)
  | (.proceed, st1) => GetStream_create env fuel st1

/-- `ArchiveExtractor::GetStream` (lines 250-312). The result is the HRESULT, the value of
`*outStream` (`none` is `nullptr`) and the job state. -/
def GetStream (env : Env) (file_list : FileList) (src_dir_index : Nat) (dst_dir : wstring)
    (fuel : Nat) (index : Nat) (askExtractMode : Nat) (st : Job) :
    Option (Nat × Option FileExtractStream × Job) :=
  if askExtractMode ≠ kExtract then
    some (S_OK, none, st)
  else
    match file_list[index]? with
    | none => none
    | some file_info =>
      match GetStream_path file_list src_dir_index fuel file_info.parent file_info.name with
      | none => none
      | some path =>
        GetStream_body env fuel
          { st with file_info := file_info, file_path := dst_dir ++ ['\\'] ++ path }

/-- A sequence of `GetStream` calls, each given as (index, askExtractMode), made one after
the other on the same job; the results are collected in order. -/
def GetStream_seq (env : Env) (file_list : FileList) (src_dir_index : Nat) (dst_dir : wstring)
    (fuel : Nat) : List (Nat × Nat) → Job → Option (List (Nat × Option FileExtractStream) × Job)
  | [], st => some ([], st)
  | (index, mode) :: calls, st =>
    match GetStream env file_list src_dir_index dst_dir fuel index mode st with
    | none => none
    | some (hr, out, st1) =>
      match GetStream_seq env file_list src_dir_index dst_dir fuel calls st1 with
      | none => none
      | some (rs, st2) => some ((hr, out) :: rs, st2)

/-- A call of one of the two error-policy functions. -/
inductive PolicyCall
  | retry_or_ignore (path : wstring) (error : Error)
  | ignore (path : wstring) (error : Error)
deriving DecidableEq, Repr

def PolicyCall.entry : PolicyCall → wstring × Error
  | .retry_or_ignore path error => (path, error)
  | .ignore path error => (path, error)

/-- One error-policy call; the value is `true` when the call answered Ignore. -/
def PolicyCall.run (env : Env) (c : PolicyCall) (st : Job) : Res Bool :=
  match c with
  | .retry_or_ignore path error => retry_or_ignore_error env path error st
  | .ignore path error =>
    match ignore_error env path error st with
    | .ok () st1 => .ok true st1
    | .fail e st1 => .fail e st1

/-- A sequence of error-policy calls on one job; an abort ends the sequence. -/
def PolicyCall.run_seq (env : Env) : List PolicyCall → Job → Res (List Bool)
  | [], st => .ok [] st
  | c :: cs, st =>
    match c.run env st with
    | .fail e st1 => .fail e st1
    | .ok b st1 =>
      match PolicyCall.run_seq env cs st1 with
      | .fail e st2 => .fail e st2
      | .ok bs st2 => .ok (b :: bs) st2

/-- `ParentChain file_list src_dir_index p ps`: following parent indices from `p`, the
entries met before the extraction root `src_dir_index` is reached are `ps`, innermost
first (`ps` is empty when `p` is the extraction root itself). -/
inductive ParentChain (file_list : FileList) (src_dir_index : Nat) : Nat → List Nat → Prop
  | root : ParentChain file_list src_dir_index src_dir_index []
  | step {p : Nat} {info : FileInfo} {ps : List Nat} :
      p ≠ src_dir_index → file_list[p]? = some info →
      ParentChain file_list src_dir_index info.parent ps →
      ParentChain file_list src_dir_index p (p :: ps)

def name_of (file_list : FileList) (i : Nat) : wstring :=
  match file_list[i]? with
  | some info => info.name
  | none => []

/-- The names of the ancestors `ps` (given innermost first) written outermost first, each
followed by a backslash: for `[p1, ..., pk]` this is `name pk \ ... \ name p1 \`. -/
def ancestors_path (file_list : FileList) : List Nat → wstring
  | [] => []
  | p :: ps => ancestors_path file_list ps ++ name_of file_list p ++ ['\\']

def Event.is_overwrite_dialog : Event → Bool
  | .overwrite_dialog _ => true
  | _ => false

/-- Events that are prompts shown to the user. -/
def Event.is_prompt : Event → Bool
  | .overwrite_dialog _ => true
  | .error_retry_ignore_dialog _ _ _ => true
  | _ => false

/-- `PolicyFrame st st1`: from `st` to `st1` the overwrite policy did not change and no
overwrite prompt was issued. -/
def PolicyFrame (st st1 : Job) : Prop :=
  st1.oo = st.oo ∧
  st1.trace.filter Event.is_overwrite_dialog = st.trace.filter Event.is_overwrite_dialog

/-- Events that only look at the destination. -/
def Event.is_lookup : Event → Bool
  | .FindFirstFileW _ => true
  | .FindClose => true
  | _ => false

/-! ## Well-formed trees, subtrees and the specification of the preparation walk -/

/-- Following parent indices from `i` for at most `k` steps leaves the file list (reaches
the root sentinel or any index outside the list). -/
def chain_leaves (file_list : FileList) : Nat → Nat → Bool
  | 0, i => decide (file_list.length ≤ i)
  | k + 1, i =>
    match file_list[i]? with
    | none => true
    | some fi => chain_leaves file_list k fi.parent

/-- A well-formed (acyclic, parent-indexed) file tree: the sibling ordering lists every
index exactly once, the parent of an entry is a directory whenever it is an entry of the
list at all, and every parent chain leaves the list (no entry is its own ancestor). -/
structure WellFormed (ar : Archive) : Prop where
  index_perm : ar.file_list_index.Perm (List.range ar.file_list.length)
  parent_is_dir : ∀ (i : Nat) (fi fp : FileInfo), ar.file_list[i]? = some fi →
    ar.file_list[fi.parent]? = some fp → fp.is_dir = true
  acyclic : ∀ i, i < ar.file_list.length →
    chain_leaves ar.file_list ar.file_list.length i = true

/-- `InSubtree file_list r i`: entry `i` is `r` or has `r` among its ancestors. -/
inductive InSubtree (file_list : FileList) (r : Nat) : Nat → Prop
  | root : r < file_list.length → InSubtree file_list r r
  | child {i : Nat} {fi : FileInfo} :
      file_list[i]? = some fi → InSubtree file_list r fi.parent → InSubtree file_list r i

def is_directory (file_list : FileList) (i : Nat) : Prop :=
  ∃ fi, file_list[i]? = some fi ∧ fi.is_dir = true

def is_file (file_list : FileList) (i : Nat) : Prop :=
  ∃ fi, file_list[i]? = some fi ∧ fi.is_dir = false

def Event.is_enter : Event → Bool
  | .enter _ => true
  | _ => false

/-- Every directory-creation retry loop of `prepare_extract` comes to an end and returns
normally: the environment neither fails and answers Retry for ever, nor answers Cancel. -/
def CreateDirReturns (env : Env) : Prop :=
  ∀ (dir_path : wstring) (st : Job), ∃ fuel st1,
    prepare_extract_create_dir env dir_path fuel st = some (.ok () st1)

/-- `DestPath ar r parent_dir d path`: `path` is the destination path of entry `d` of the
subtree of the selected root `r`, when `r` is extracted into `parent_dir`: the path of the
parent, a separating backslash (`add_trailing_slash`), the name of the entry. -/
inductive DestPath (ar : Archive) (r : Nat) (parent_dir : wstring) : Nat → wstring → Prop
  | root {fr : FileInfo} : ar.file_list[r]? = some fr →
      DestPath ar r parent_dir r (add_trailing_slash parent_dir ++ fr.name)
  | child {c : Nat} {fc : FileInfo} {p : wstring} : ar.file_list[c]? = some fc →
      DestPath ar r parent_dir fc.parent p →
      DestPath ar r parent_dir c (add_trailing_slash p ++ fc.name)

/-- What the walk `prepare_extract r`, called with `parent_dir`, is to do: `evs` are the
events it adds to the trace and `new` the indices it appends. -/
structure WalkSpec (ar : Archive) (r : Nat) (parent_dir : wstring) (evs : List Event)
    (new : List Nat) : Prop where
  /-- The walk starts by entering `r`. -/
  starts : ∃ rest, evs = .enter r :: rest
  /-- No index is appended twice. -/
  nodup : new.Nodup
  /-- The appended indices are exactly the non-directory entries of the subtree of `r`. -/
  files : ∀ i, i ∈ new ↔ InSubtree ar.file_list r i ∧ is_file ar.file_list i
  /-- The entries visited are exactly those of the subtree of `r`. -/
  visits : ∀ i, Event.enter i ∈ evs ↔ InSubtree ar.file_list r i
  /-- On entering a directory of the subtree a create-directory request is issued, for the
  destination path of that directory. -/
  creates : ∀ d, InSubtree ar.file_list r d → is_directory ar.file_list d →
    ∃ A C p, DestPath ar r parent_dir d p ∧
      evs = A ++ .enter d :: .CreateDirectoryW p :: C
  /-- A create-directory request on entering an entry is issued for directories only, and
  it names the destination path of the entry. -/
  creates_only : ∀ A C d p, evs = A ++ .enter d :: .CreateDirectoryW p :: C →
    is_directory ar.file_list d ∧ DestPath ar r parent_dir d p
  /-- Every create-directory request of the walk, first attempt or retry, names the
  destination path of a directory of the subtree. -/
  requests : ∀ p, Event.CreateDirectoryW p ∈ evs →
    ∃ d, InSubtree ar.file_list r d ∧ is_directory ar.file_list d ∧
      DestPath ar r parent_dir d p
  /-- Every visit of an entry other than `r` comes after the create-directory request
  issued, for the destination path of its parent, on entering its parent. -/
  parent_first : ∀ c A C, evs = A ++ .enter c :: C →
    c = r ∨ ∃ fc p A1 A2, ar.file_list[c]? = some fc ∧
      DestPath ar r parent_dir fc.parent p ∧
      A = A1 ++ .enter fc.parent :: .CreateDirectoryW p :: A2

/-- The walks of a list of entries, one after the other, each called with `parent_dir`. -/
inductive WalkSegs (ar : Archive) (parent_dir : wstring) :
    List Nat → List Event → List Nat → Prop
  | nil : WalkSegs ar parent_dir [] [] []
  | cons {c : Nat} {cs : List Nat} {e1 e2 : List Event} {n1 n2 : List Nat} :
      WalkSpec ar c parent_dir e1 n1 → WalkSegs ar parent_dir cs e2 n2 →
      WalkSegs ar parent_dir (c :: cs) (e1 ++ e2) (n1 ++ n2)

/-! ## Attribute restoration and the whole job (`extract.cpp` lines 441-500) -/

/-- One pass through the `try` block of `set_attr` (lines 455-459). Modelled from the spec:
the class `File` is declared outside src/; spec section 4.2 step 3: the walk "re-opens the
path to set timestamps". Its constructor opens the path and throws when that fails,
`set_time` calls `SetFileTime` on the handle and throws when that fails, and its destructor
closes the handle when the block is left. -/
def set_attr_attempt (env : Env) (file_path : wstring) (file_info : FileInfo) (st : Job) :
    Res Unit :=
  let st1 := st.emit (.SetFileAttributesW file_path FILE_ATTRIBUTE_NORMAL)
  match env.SetFileAttributesW st.trace file_path FILE_ATTRIBUTE_NORMAL with
  | some last_error => .fail (CHECK_SYS_error last_error) st1
  | none =>
    let st2 := st1.emit (.File_open file_path)
    match env.File_open st1.trace file_path with
    | .error last_error => .fail (CHECK_SYS_error last_error) st2
    | .ok h =>
      let st3 := st2.emit (.SetFileAttributesW file_path file_info.attr)
      match env.SetFileAttributesW st2.trace file_path file_info.attr with
      | some last_error => .fail (CHECK_SYS_error last_error) (st3.emit (.CloseHandle (some h)))
      | none =>
        let st4 := st3.emit
          (.SetFileTime (some h) file_info.ctime file_info.atime file_info.mtime)
        match env.SetFileTime st3.trace h file_info.ctime file_info.atime file_info.mtime with
        | some last_error =>
          .fail (CHECK_SYS_error last_error) (st4.emit (.CloseHandle (some h)))
        | none => .ok () (st4.emit (.CloseHandle (some h)))

/-- The `while (true)` loop of `set_attr` (lines 453-465). -/
def set_attr_restore (env : Env) (file_path : wstring) (file_info : FileInfo) :
    Nat → Job → Option (Res Unit)
  | 0, _ => none
  | fuel + 1, st =>
    match set_attr_attempt env file_path file_info st with
    | .ok () st1 => some (.ok () st1)
    | .fail e st1 =>
      match retry_or_ignore_error env file_path e st1 with
      | .ok true st2 => some (.ok () st2)
      | .ok false st2 => set_attr_restore env file_path file_info fuel st2
      | .fail e2 st2 => some (.fail e2 st2)

/-- One step of a `for_each`/`for` loop without a result value. -/
def for_each_unit (body : Nat → Job → Option (Res Unit)) (acc : Option (Res Unit))
    (file_index : Nat) : Option (Res Unit) :=
  match acc with
  | some (.ok () st) => body file_index st
  | other => other

/-- `Archive::set_attr` (lines 441-466). -/
def set_attr (env : Env) (ar : Archive) : Nat → Nat → wstring → Job → Option (Res Unit)
  | 0, _, _, _ => none
  | fuel + 1, file_index, parent_dir, st =>
    match ar.file_list[file_index]? with
    | none => none
    | some file_info =>
      let file_path := add_trailing_slash parent_dir ++ file_info.name
      let walked : Option (Res Unit) :=
        if file_info.is_dir then
          (get_dir_list ar file_index).foldl
            (for_each_unit fun file_index st =>
              match ar.file_list[file_index]? with
              | none => none
              | some child =>
                if child.is_dir then set_attr env ar fuel file_index file_path st
                else some (.ok () st))
            (some (.ok () st))
        else
          some (.ok () st)
      match walked with
      | some (.ok () st1) => set_attr_restore env file_path file_info fuel st1
      | other => other

/-- The loop of `Archive::extract` over the selected roots (lines 495-499). -/
def extract_set_attr (env : Env) (ar : Archive) (fuel : Nat) (src_indices : List Nat)
    (dst_dir : wstring) (st : Job) : Option (Res Unit) :=
  src_indices.foldl
    (for_each_unit fun file_index st => set_attr env ar fuel file_index dst_dir st)
    (some (.ok () st))

/-- `FAILED(hr)`: the HRESULT, read as a signed 32-bit value, is negative. -/
def FAILED (hr : Nat) : Bool :=
  decide (0x80000000 ≤ hr % 2 ^ 32)

/-- `Archive::extract` (lines 468-500), from the job state reached after `prepare_dst_dir`
with `ignore_errors` and `oo` taken from the options. The codec engine is the parameter
`engine`: given the index array it returns the HRESULT of `in_arc->Extract` and the job
state in which its callbacks left the job. Modelled from the spec: `Error` is declared
outside src/; the fresh `Error error` of line 485 holds no error, and `if (error)` tests
whether a callback has stored one (spec section 4.2: "no recorded soft error"). -/
def extract (env : Env) (engine : List Nat → Job → Nat × Job) (ar : Archive) (fuel : Nat)
    (src_indices : List Nat) (dst_dir : wstring) (st : Job) : Option (Res Unit) :=
  match extract_indices env ar fuel src_indices dst_dir st with
  | none => none
  | some (.fail e st1) => some (.fail e st1)
  | some (.ok indices st1) =>
    match engine indices { st1 with error := none } with
    | (res, st2) =>
      if FAILED res then
        match st2.error with
        | some error => some (.fail error st2)
        | none => some (.fail ⟨res⟩ st2)
      else
        extract_set_attr env ar fuel src_indices dst_dir st2

/-! ## Result callback (`extract.cpp` lines 318-334) -/

/-- `NArchive::NExtract::NOperationResult`. -/
def kUnSupportedMethod : Nat := 1
def kDataError : Nat := 2
def kCRCError : Nat := 3

def MSG_ERROR_EXTRACT_UNSUPPORTED_METHOD : Nat := 0
def MSG_ERROR_EXTRACT_DATA_ERROR : Nat := 1
def MSG_ERROR_EXTRACT_CRC_ERROR : Nat := 2

/-- `ArchiveExtractor::SetOperationResult` (lines 318-334). The parameter `fail_msg` gives,
for a message id, the `Error` that `FAIL_MSG(Far::get_msg(id))` throws (the macro is
defined outside src/). After `ignore_error` has returned, control leaves the function
through `COM_ERROR_HANDLER_END`, which returns the code of the `error` member
(`S_OK` while no error is stored). -/
def SetOperationResult (env : Env) (fail_msg : Nat → Error) (resultEOperationResult : Nat)
    (st : Job) : Nat × Job :=
  let thrown : Option Error :=
    if resultEOperationResult = kUnSupportedMethod then
      some (fail_msg MSG_ERROR_EXTRACT_UNSUPPORTED_METHOD)
    else if resultEOperationResult = kDataError then
      some (fail_msg MSG_ERROR_EXTRACT_DATA_ERROR)
    else if resultEOperationResult = kCRCError then
      some (fail_msg MSG_ERROR_EXTRACT_CRC_ERROR)
    else
      none
  match thrown with
  | none => (S_OK, st)
  | some e =>
    match ignore_error env st.file_path e st with
    | .ok () st1 =>
      (match st1.error with
        | some stored => stored.code
        | none => S_OK, st1)
    | .fail e2 st1 => COM_ERROR_HANDLER_END e2 st1

/-! ## Format detection (`open.cpp` lines 175-286)

The codec library, the streams, the archive objects and the menu of the host are an
environment `Codec`, answered from the history of calls like `Env`. Streams and archive
objects are numbers chosen by the environment. Progress painting, the volume and password
callbacks, and the assignments of `archive_file_info` and `archive_dir` in `Archive::open`
are not modelled. -/

/-- Modelled from the spec: `ArcFormat` is declared outside src/. Spec section 3,
ArchiveFormat: "opaque format id, human-readable name". -/
structure ArcFormat where
  name : wstring
  class_id : Nat
deriving DecidableEq, Repr

abbrev IInStream := Nat

abbrev IInArchive := Nat

def E_FAIL : Nat := 0x80004005

/-- One call made while opening. `open_archive` is a ghost marker recording the arguments
with which `open_archive` was entered. -/
inductive OpenEvent
  | ArchiveOpenStream
  | open_archive (format : ArcFormat) (in_stream : IInStream)
  | CreateObject (format : ArcFormat)
  | Seek (in_stream : IInStream)
  | Open (archive : IInArchive) (in_stream : IInStream)
  | GetArchiveProperty (in_arc : IInArchive)
  | GetNumberOfItems (in_arc : IInArchive)
  | QueryInterface_GetStream (in_arc : IInArchive)
  | GetStream (in_arc : IInArchive) (index : Nat)
  | QueryInterface_IInStream (seq_stream : Nat)
  | menu (items : List wstring)
deriving DecidableEq, Repr

/-- The codec library and the host, as seen by `open.cpp`. -/
structure Codec where
  /-- `new ArchiveOpenStream`: a last-error value or the host file stream. -/
  ArchiveOpenStream : List OpenEvent → Except Nat IInStream
  /-- `CreateObject`: a failure HRESULT or the archive object. -/
  CreateObject : List OpenEvent → ArcFormat → Except Nat IInArchive
  /-- HRESULT of `Seek(0, STREAM_SEEK_SET)`. -/
  Seek : List OpenEvent → IInStream → Nat
  /-- HRESULT of `Open`, and the error that the callbacks stored in the `error` member of
  the opener during the call, if they stored one. -/
  Open : List OpenEvent → IInArchive → IInStream → Nat × Option Error
  /-- `GetArchiveProperty(kpidMainSubfile)`: the value when the call returns `S_OK` with a
  `VT_UI4` variant. -/
  GetArchiveProperty : List OpenEvent → IInArchive → Option Nat
  /-- `GetNumberOfItems`: the count when the call returns `S_OK`. -/
  GetNumberOfItems : List OpenEvent → IInArchive → Option Nat
  /-- Whether the archive object gives out the `IInArchiveGetStream` interface. -/
  QueryInterface_GetStream : List OpenEvent → IInArchive → Bool
  /-- `GetStream(main_subfile)`: the sequential stream when `S_OK` and not null. -/
  GetStream : List OpenEvent → IInArchive → Nat → Option Nat
  /-- The seekable `IInStream` of a sequential stream, when it has one. -/
  QueryInterface_IInStream : List OpenEvent → Nat → Option IInStream
  /-- `Far::menu`: the chosen index, or -1. -/
  menu : List OpenEvent → List wstring → Int

/-- State of an `ArchiveOpener`: its `error` member (code 0 is `NO_ERROR`) and the calls
made so far. -/
structure Opener where
  error : Error
  trace : List OpenEvent
deriving DecidableEq, Repr

def Opener.emit (st : Opener) (ev : OpenEvent) : Opener :=
  { st with trace := st.trace ++ [ev] }

/-- Outcome of a call of the opener that may throw. -/
inductive ORes (α : Type)
  | ok (a : α) (st : Opener)
  | fail (e : Error) (st : Opener)
deriving DecidableEq, Repr

def ORes.opener {α : Type} : ORes α → Opener
  | .ok _ st => st
  | .fail _ st => st

/-- `ArchiveOpener::open_sub_stream` (lines 175-198): the primary embedded substream of an
opened archive, `none` when the function returns `false`. -/
def open_sub_stream (codec : Codec) (in_arc : IInArchive) (st : Opener) :
    Option IInStream × Opener :=
  let st1 := st.emit (.GetArchiveProperty in_arc)
  match codec.GetArchiveProperty st.trace in_arc with
  | none => (none, st1)
  | some main_subfile =>
    let st2 := st1.emit (.GetNumberOfItems in_arc)
    match codec.GetNumberOfItems st1.trace in_arc with
    | none => (none, st2)
    | some num_items =>
      if num_items ≤ main_subfile then (none, st2)
      else
        let st3 := st2.emit (.QueryInterface_GetStream in_arc)
        if codec.QueryInterface_GetStream st2.trace in_arc then
          let st4 := st3.emit (.GetStream in_arc main_subfile)
          match codec.GetStream st3.trace in_arc main_subfile with
          | none => (none, st4)
          | some sub_seq_stream =>
            let st5 := st4.emit (.QueryInterface_IInStream sub_seq_stream)
            match codec.QueryInterface_IInStream st4.trace sub_seq_stream with
            | none => (none, st5)
            | some sub_stream => (some sub_stream, st5)
        else (none, st3)

/-- `ArchiveOpener::open_archive` (lines 200-213). The value is the returned `bool` and
the archive object stored through the `archive` parameter. Modelled from the spec: the
macro `CHECK_COM` is defined outside src/; it raises an `Error` carrying the HRESULT when
the HRESULT is a failure (spec section 4.1: a fatal error "propagates as a hard
failure"). -/
def open_archive (codec : Codec) (format : ArcFormat) (in_stream : IInStream) (st : Opener) :
    ORes (Bool × IInArchive) :=
  let st0 := st.emit (.open_archive format in_stream)
  let st1 := st0.emit (.CreateObject format)
  match codec.CreateObject st0.trace format with
  | .error hr => .fail ⟨hr⟩ st1
  | .ok archive =>
    let st2 := st1.emit (.Seek in_stream)
    if FAILED (codec.Seek st1.trace in_stream) then
      .fail ⟨codec.Seek st1.trace in_stream⟩ st2
    else
      let st3 := st2.emit (.Open archive in_stream)
      match codec.Open st2.trace archive in_stream with
      | (res, stored) =>
        let st4 : Opener :=
          match stored with
          | some e => { st3 with error := e }
          | none => st3
        if FAILED res then
          if st4.error.code ≠ 0 then .fail st4.error st4 else .fail ⟨res⟩ st4
        else
          .ok (res == S_OK, archive) st4

abbrev Detected := List IInArchive × List (List ArcFormat)

/-- The body of the `for_each` of `detect` (lines 219-229) for one registered format;
`detect_sub` is the recursive call of `detect`. -/
def detect_step (codec : Codec)
    (detect_sub : IInStream → List IInArchive → List (List ArcFormat) → Opener →
      Option (ORes Detected))
    (in_stream : IInStream) (parent_format : List ArcFormat)
    (acc : Option (ORes Detected)) (arc_format : ArcFormat) : Option (ORes Detected) :=
  match acc with
  | some (.ok (archives, formats) st) =>
    match open_archive codec arc_format in_stream st with
    | .fail e st1 => some (.fail e st1)
    | .ok (false, _) st1 => some (.ok (archives, formats) st1)
    | .ok (true, archive) st1 =>
      match open_sub_stream codec archive st1 with
      | (some sub_stream, st2) =>
        detect_sub sub_stream (archives ++ [archive])
          (formats ++ [parent_format ++ [arc_format]]) st2
      | (none, st2) =>
        some (.ok (archives ++ [archive], formats ++ [parent_format ++ [arc_format]]) st2)
  | other => other

/-- `ArchiveOpener::detect` (lines 215-231); `archives` and `formats` are the two vectors
passed by reference, returned as the value. -/
def detect (codec : Codec) (arc_formats : List ArcFormat) :
    Nat → IInStream → List IInArchive → List (List ArcFormat) → Opener →
      Option (ORes Detected)
  | 0, _, _, _, _ => none
  | fuel + 1, in_stream, archives, formats, st =>
    arc_formats.foldl
      (detect_step codec (detect codec arc_formats fuel) in_stream (formats.getLast?.getD []))
      (some (.ok (archives, formats) st))

/-- The members of `Archive` that `open.cpp` reads and writes: the registered formats, the
selected archive object (`none` is a null `in_arc`) and the stored format chain. -/
structure ArchiveHandle where
  arc_formats : List ArcFormat
  in_arc : Option IInArchive
  formats : List ArcFormat
deriving DecidableEq, Repr

/-- The menu line of a chain (lines 271-276): the format names joined by `->`. -/
def chain_name (chain : List ArcFormat) : wstring :=
  chain.foldl (fun name f => (if name.isEmpty then name else name ++ ['-', '>']) ++ f.name) []

/-- Lines 262-285 of `Archive::open`: the choice among the detected chains. The value is
the returned `bool` and the archive members; `none` stands for an index outside the
vectors. -/
def Archive_open_select (codec : Codec) (archives : List IInArchive)
    (formats : List (List ArcFormat)) (ar : ArchiveHandle) (st : Opener) :
    Option (ORes (Bool × ArchiveHandle)) :=
  let pick (format_idx : Nat) (st : Opener) : Option (ORes (Bool × ArchiveHandle)) :=
    match archives[format_idx]?, formats[format_idx]? with
    | some archive, some chain =>
      some (.ok (true, { ar with in_arc := some archive, formats := chain }) st)
    | _, _ => none
  if formats.length = 0 then
    some (.ok (false, ar) st)
  else if formats.length = 1 then
    pick 0 st
  else
    let format_names := formats.map chain_name
    let st1 := st.emit (.menu format_names)
    let format_idx := codec.menu st.trace format_names
    if format_idx = -1 then
      some (.ok (false, ar) st1)
    else if format_idx < 0 then
      none
    else
      pick format_idx.toNat st1

/-- `Archive::open` (lines 253-286) with `ArchiveOpener::open` (lines 233-236): a fresh
opener, the host stream, `detect`, the choice. -/
def Archive_open (codec : Codec) (fuel : Nat) (ar : ArchiveHandle) (trace : List OpenEvent) :
    Option (ORes (Bool × ArchiveHandle)) :=
  let st : Opener := { error := ⟨0⟩, trace := trace }
  let st1 := st.emit .ArchiveOpenStream
  match codec.ArchiveOpenStream st.trace with
  | .error last_error => some (.fail (CHECK_SYS_error last_error) st1)
  | .ok stream =>
    match detect codec ar.arc_formats fuel stream [] [] st1 with
    | none => none
    | some (.fail e st2) => some (.fail e st2)
    | some (.ok (archives, formats) st2) => Archive_open_select codec archives formats ar st2

/-- The `while` loop of `reopen` (lines 243-248). Modelled from the spec: the macro `CHECK`
is defined outside src/; a failed check raises, here with the code `E_FAIL`. What
`archive.in_arc` holds after an exception is not modelled. -/
def reopen_loop (codec : Codec) (stream : IInStream) :
    List ArcFormat → ArchiveHandle → Opener → Option (ORes ArchiveHandle)
  | [], ar, st => some (.ok ar st)
  | format :: rest, ar, st =>
    match ar.in_arc with
    | none => none
    | some in_arc =>
      match open_sub_stream codec in_arc st with
      | (none, st1) => some (.fail ⟨E_FAIL⟩ st1)
      | (some _, st1) =>
        match open_archive codec format stream st1 with
        | .fail e st2 => some (.fail e st2)
        | .ok (false, _) st2 => some (.fail ⟨E_FAIL⟩ st2)
        | .ok (true, archive) st2 =>
          reopen_loop codec stream rest { ar with in_arc := some archive } st2

/-- `Archive::reopen` (lines 294-297) with `ArchiveOpener::reopen` (lines 238-249); `none`
stands for dereferencing `formats.begin()` of an empty chain. -/
def Archive_reopen (codec : Codec) (ar : ArchiveHandle) (trace : List OpenEvent) :
    Option (ORes ArchiveHandle) :=
  let st : Opener := { error := ⟨0⟩, trace := trace }
  let st1 := st.emit .ArchiveOpenStream
  match codec.ArchiveOpenStream st.trace with
  | .error last_error => some (.fail (CHECK_SYS_error last_error) st1)
  | .ok stream =>
    match ar.formats with
    | [] => none
    | format :: rest =>
      match open_archive codec format stream st1 with
      | .fail e st2 => some (.fail e st2)
      | .ok (false, _) st2 => some (.fail ⟨E_FAIL⟩ st2)
      | .ok (true, archive) st2 =>
        reopen_loop codec stream rest { ar with in_arc := some archive } st2

/-- The arguments of the `open_archive` calls recorded in a trace, in order. -/
def open_archive_calls : List OpenEvent → List (ArcFormat × IInStream)
  | [] => []
  | .open_archive format in_stream :: rest => (format, in_stream) :: open_archive_calls rest
  | _ :: rest => open_archive_calls rest

def OpenEvent.is_menu : OpenEvent → Bool
  | .menu _ => true
  | _ => false

/-- `DetectOK M acc`: in the outcome `acc` of a detection the two vectors have the same
length and the menu events recorded are still `M`. -/
def DetectOK (M : List OpenEvent) : Option (ORes Detected) → Prop
  | some (.ok (archives, formats) st) =>
    archives.length = formats.length ∧ st.trace.filter OpenEvent.is_menu = M
  | some (.fail _ st) => st.trace.filter OpenEvent.is_menu = M
  | none => True

/-- The format does not open the stream: `open_archive` returns `false`, whatever was
called before. -/
def Rejects (codec : Codec) (format : ArcFormat) (in_stream : IInStream) : Prop :=
  ∀ st, ∃ archive st1, open_archive codec format in_stream st = .ok (false, archive) st1

/-- The format opens the stream: `open_archive` returns `true`, whatever was called
before. -/
def Opens (codec : Codec) (format : ArcFormat) (in_stream : IInStream) : Prop :=
  ∀ st, ∃ archive st1, open_archive codec format in_stream st = .ok (true, archive) st1

/-- No chain continues inside the archive that `format` opens on `in_stream`: the archive
exposes no primary embedded substream, or no registered format opens that substream. -/
def NoChainInside (codec : Codec) (arc_formats : List ArcFormat) (format : ArcFormat)
    (in_stream : IInStream) : Prop :=
  ∀ st archive st1, open_archive codec format in_stream st = .ok (true, archive) st1 →
    (open_sub_stream codec archive st1).1 = none ∨
    ∃ sub_stream, (open_sub_stream codec archive st1).1 = some sub_stream ∧
      ∀ g ∈ arc_formats, Rejects codec g sub_stream

/-! ## Concrete inputs used to exercise the theorems -/

/-- An environment in which every dialog is answered by the given responses and every
Win32 call succeeds (no file is found, handle 1 is returned, all bytes are written). -/
def env_answers (r : RetryDialogResult) (a : OverwriteAction) : Env where
  error_retry_ignore_dialog := fun _ _ _ _ => r
  overwrite_dialog := fun _ _ => a
  CreateDirectoryW := fun _ _ => none
  FindFirstFileW := fun _ _ => false
  SetFileAttributesW := fun _ _ _ => none
  CreateFileW := fun _ _ => .ok 1
  WriteFile := fun _ _ _ size => .ok size
  SetFilePointerEx := fun _ _ _ => none
  SetEndOfFile := fun _ _ => none
  File_open := fun _ _ => .ok 2
  SetFileTime := fun _ _ _ _ _ => none

def job0 : Job where
  ignore_errors := false
  error_log := []
  oo := .ooAsk
  error := none
  progress := ⟨0, 0, [], 0, 0⟩
  file_path := []
  file_info := ⟨[], 0, 0, 0, 0, 0, 0, false⟩
  trace := []

/-- Archive of the concrete scenario of the spec, below one more directory level:
0 `top/`, 1 `top/dir/`, 2 `top/dir/a.txt` (10 bytes), 3 `top/b.txt` (0 bytes);
the parent of `top` is the root sentinel 0xFFFFFFFF. -/
def archive1 : Archive where
  file_list :=
    [ ⟨['t', 'o', 'p'], 0x10, 0, 0, 0, 0, 0xFFFFFFFF, true⟩,
      ⟨['d', 'i', 'r'], 0x10, 0, 0, 0, 0, 0, true⟩,
      ⟨['a'], 0x20, 0, 0, 0, 10, 1, false⟩,
      ⟨['b'], 0x20, 0, 0, 0, 0, 0, false⟩ ]
  file_list_index := [0, 3, 1, 2]

/-- Like `env_answers`, but every destination file already exists. -/
def env_exists (r : RetryDialogResult) (a : OverwriteAction) : Env :=
  { env_answers r a with FindFirstFileW := fun _ _ => true }

/-- Like `env_answers`, but every `CreateFileW` fails with `ERROR_ACCESS_DENIED` (5). -/
def env_create_fails (r : RetryDialogResult) : Env :=
  { env_answers r .oaYes with CreateFileW := fun _ _ => .error 5 }

/-- Like `env_answers`, but every `CreateDirectoryW` fails with `ERROR_ACCESS_DENIED` (5). -/
def env_mkdir_fails (r : RetryDialogResult) : Env :=
  { env_answers r .oaYes with CreateDirectoryW := fun _ _ => some 5 }

/-- The tree of `archive1` with attributes and timestamps that tell the entries apart:
0 `top/`, 1 `top/dir/` (read-only), 2 `top/dir/a` (read-only, 10 bytes), 3 `top/b`. -/
def archive2 : Archive where
  file_list :=
    [ ⟨['t', 'o', 'p'], 0x10, 1, 2, 3, 0, 0xFFFFFFFF, true⟩,
      ⟨['d', 'i', 'r'], 0x11, 4, 5, 6, 0, 0, true⟩,
      ⟨['a'], 0x21, 7, 8, 9, 10, 1, false⟩,
      ⟨['b'], 0x20, 10, 11, 12, 0, 0, false⟩ ]
  file_list_index := [0, 3, 1, 2]

/-- An engine that reports the given result and leaves the job as it is. -/
def engine_returns (res : Nat) : List Nat → Job → Nat × Job :=
  fun _ st => (res, st)

/-- The error thrown for a message id, for exercising `SetOperationResult`. -/
def fail_msg0 (msg_id : Nat) : Error :=
  ⟨0x80040200 + msg_id⟩

/-- Like `env_answers .rdrRetry`, but `CreateFileW` on a path fails with
`ERROR_ACCESS_DENIED` (5) the first time and succeeds (handle 1) from the second time on. -/
def env_open_retry : Env :=
  { env_answers .rdrRetry .oaYes with
    CreateFileW := fun h p => if Event.CreateFileW p ∈ h then .ok 1 else .error 5 }

/-- The job as `GetStream` has set it for the file `a` extracted to `C:\a`: the members
`file_path` and `file_info` hold the path and the entry. -/
def job_a : Job :=
  { job0 with file_path := ['C', ':', '\\', 'a'],
              file_info := ⟨['a'], 0x20, 0, 0, 0, 10, 1, false⟩ }

/-- The stream that the constructor builds in `env_open_retry` for the file `a`. -/
def stream_retried : FileExtractStream :=
  { h_file := some 1, error_state := true }

def format_A : ArcFormat := ⟨['A'], 1⟩

def format_B : ArcFormat := ⟨['B'], 2⟩

/-- A codec library with the host stream 0. Format `A` gives the archive object 10 and
format `B` the object 20; object 10 opens the host stream, object 20 opens stream 5, and
nothing else opens. Archive 10 has the primary embedded substream 5 (item 0 of 1, reached
through the sequential stream 7) when `nested` is true, and none otherwise. The menu
answers `choice`. -/
def codec1 (nested : Bool) (choice : Int) : Codec where
  ArchiveOpenStream := fun _ => .ok 0
  CreateObject := fun _ format => .ok (10 * format.class_id)
  Seek := fun _ _ => 0
  Open := fun _ archive in_stream =>
    (if (archive = 10 ∧ in_stream = 0) ∨ (archive = 20 ∧ in_stream = 5) then 0 else 1, none)
  GetArchiveProperty := fun _ in_arc => if nested ∧ in_arc = 10 then some 0 else none
  GetNumberOfItems := fun _ _ => some 1
  QueryInterface_GetStream := fun _ _ => true
  GetStream := fun _ _ _ => some 7
  QueryInterface_IInStream := fun _ _ => some 5
  menu := fun _ _ => choice

def handle0 : ArchiveHandle :=
  { arc_formats := [format_A, format_B], in_arc := none, formats := [] }

def format_C : ArcFormat := ⟨['C'], 3⟩

/-- Like `codec1` without nesting, with a third format `C` (archive object 30) whose `Open`
ends with the failure HRESULT `E_FAIL` on every stream, no error being stored by the
callbacks. -/
def codec_hard_failure : Codec :=
  { codec1 false 0 with
    Open := fun _ archive in_stream =>
      (if archive = 30 then E_FAIL
        else if (archive = 10 ∧ in_stream = 0) ∨ (archive = 20 ∧ in_stream = 5) then 0
        else 1, none) }

def handle_three : ArchiveHandle :=
  { arc_formats := [format_A, format_B, format_C], in_arc := none, formats := [] }

/-- An engine that extracts the requested entries one after the other through the
callbacks: for each index it asks for the stream (`GetStream`), writes the bytes of the
entry (zeros) with one `Write`, releases the stream and reports `kOK` (0) to
`SetOperationResult`; an entry for which `GetStream` hands out no stream is skipped, and
the engine stops with the HRESULT of the first callback that fails. -/
def engine_extracts (env : Env) (file_list : FileList) (src_dir_index : Nat)
    (dst_dir : wstring) : List Nat → Job → Nat × Job
  | [], st => (S_OK, st)
  | index :: rest, st =>
    match GetStream env file_list src_dir_index dst_dir (file_list.length + 1) index
        kExtract st with
    | none => (0x80004005, st)
    | some (hr, none, st1) =>
      if hr ≠ S_OK then (hr, st1)
      else engine_extracts env file_list src_dir_index dst_dir rest st1
    | some (_, some s, st1) =>
      let w := s.Write env (List.replicate st1.file_info.size 0) st1.file_info.size st1
      let st2 := w.stream.destroy w.job
      if w.hresult ≠ S_OK then (w.hresult, st2)
      else
        let r := SetOperationResult env fail_msg0 0 st2
        if r.1 ≠ S_OK then r
        else engine_extracts env file_list src_dir_index dst_dir rest r.2

/-! ## Theorems -/

/-! ### The index array passed to the engine -/

/-- C1. Whenever `Archive::extract` reaches the bulk `Extract` call, the index array it
passes is sorted in non-decreasing order and is a permutation of the list of file indices
collected by running `prepare_extract` over the selected roots in order (same elements
with the same multiplicities). -/
theorem extract_indices_sorted_perm (env : Env) (ar : Archive) (fuel : Nat)
    (src_indices : List Nat) (dst_dir : wstring) (st : Job) (indices : List Nat) (st1 : Job)
    (h : extract_indices env ar fuel src_indices dst_dir st = some (.ok indices st1)) :
    indices.Sorted (· ≤ ·) ∧
    ∃ file_indices,
      extract_prepare env ar fuel src_indices dst_dir st = some (.ok file_indices st1) ∧
      indices.Perm file_indices := by
  unfold extract_indices at h
  cases hp : extract_prepare env ar fuel src_indices dst_dir st with
  | none => simp [hp] at h
  | some r =>
    cases r with
    | fail e st2 => simp [hp] at h
    | ok file_indices st2 =>
      simp only [hp, Option.some.injEq, Res.ok.injEq] at h
      obtain ⟨rfl, rfl⟩ := h
      exact ⟨List.sorted_insertionSort _ _, file_indices, rfl, List.perm_insertionSort _ _⟩

/-- C1, exercised: selecting `top` of `archive1`, the walk collects `b` (index 3) before
`a` (index 2); the array passed to the engine is `[2, 3]`. -/
theorem extract_indices_sorted_perm_witness :
    extract_indices (env_answers .rdrIgnore .oaYes) archive1 3 [0] ['C', ':'] job0
      = some (.ok [2, 3]
          { job0 with trace := [.enter 0, .CreateDirectoryW ['C', ':', '\\', 't', 'o', 'p'],
              .enter 3, .enter 1,
              .CreateDirectoryW ['C', ':', '\\', 't', 'o', 'p', '\\', 'd', 'i', 'r'],
              .enter 2] }) ∧
    [2, 3].Sorted (· ≤ ·) ∧
    ∃ file_indices,
      extract_prepare (env_answers .rdrIgnore .oaYes) archive1 3 [0] ['C', ':'] job0
        = some (.ok file_indices
            { job0 with trace := [.enter 0, .CreateDirectoryW ['C', ':', '\\', 't', 'o', 'p'],
                .enter 3, .enter 1,
                .CreateDirectoryW ['C', ':', '\\', 't', 'o', 'p', '\\', 'd', 'i', 'r'],
                .enter 2] }) ∧
      [2, 3].Perm file_indices :=
  ⟨rfl, extract_indices_sorted_perm (env_answers .rdrIgnore .oaYes) archive1 3 [0] ['C', ':']
    job0 [2, 3] _ rfl⟩

/-! ### The preparation walk -/

theorem InSubtree.sub_lt {file_list : FileList} {r i : Nat} (h : InSubtree file_list r i) :
    i < file_list.length := by
  cases h with
  | root hr => exact hr
  | child hget _ => exact (List.getElem?_eq_some.mp hget).1

theorem InSubtree.sub_trans {file_list : FileList} {a b c : Nat} (hab : InSubtree file_list a b)
    (hbc : InSubtree file_list b c) : InSubtree file_list a c := by
  induction hbc with
  | root _ => exact hab
  | child hget _ ih => exact .child hget ih

theorem InSubtree.sub_linear {file_list : FileList} {a b i : Nat} (ha : InSubtree file_list a i)
    (hb : InSubtree file_list b i) : InSubtree file_list a b ∨ InSubtree file_list b a := by
  induction ha with
  | root _ => exact Or.inr hb
  | @child i fi hget hpar ih =>
    cases hb with
    | root hlt => exact Or.inl (.child hget hpar)
    | @child _ fi2 hget2 hpar2 =>
      rw [hget] at hget2
      cases hget2
      exact ih hpar2

theorem exists_depth (file_list : FileList)
    (hac : ∀ i, i < file_list.length → chain_leaves file_list file_list.length i = true) :
    ∃ depth : Nat → Nat, (∀ i, i < file_list.length → depth i ≤ file_list.length) ∧
      ∀ i fi, file_list[i]? = some fi → fi.parent < file_list.length →
        depth fi.parent < depth i := by
  classical
  refine ⟨fun i => if h : ∃ k, chain_leaves file_list k i = true then Nat.find h else 0,
    ?_, ?_⟩
  · intro i hi
    have h : ∃ k, chain_leaves file_list k i = true := ⟨_, hac i hi⟩
    simp only [h, dite_true]
    exact Nat.find_min' h (hac i hi)
  · intro i fi hget hpar
    have hi : i < file_list.length := (List.getElem?_eq_some.mp hget).1
    have h : ∃ k, chain_leaves file_list k i = true := ⟨_, hac i hi⟩
    have hspec := Nat.find_spec h
    simp only [h, dite_true]
    cases hd : Nat.find h with
    | zero =>
      rw [hd] at hspec
      simp [chain_leaves] at hspec
      omega
    | succ d =>
      rw [hd] at hspec
      simp only [chain_leaves, hget] at hspec
      have hp : ∃ k, chain_leaves file_list k fi.parent = true := ⟨d, hspec⟩
      simp only [hp, dite_true]
      exact Nat.lt_succ_of_le (Nat.find_min' hp hspec)

theorem InSubtree.sub_depth_le {file_list : FileList} {depth : Nat → Nat}
    (hd : ∀ i fi, file_list[i]? = some fi → fi.parent < file_list.length →
      depth fi.parent < depth i)
    {a b : Nat} (h : InSubtree file_list a b) : depth a ≤ depth b := by
  induction h with
  | root _ => exact Nat.le_refl _
  | child hget hpar ih => exact Nat.le_of_lt (Nat.lt_of_le_of_lt ih (hd _ _ hget hpar.sub_lt))

theorem mem_get_dir_list (ar : Archive) (hwf : WellFormed ar) (r c : Nat) :
    c ∈ get_dir_list ar r ↔ ∃ fc, ar.file_list[c]? = some fc ∧ fc.parent = r := by
  unfold get_dir_list
  rw [List.mem_filter, hwf.index_perm.mem_iff, List.mem_range]
  constructor
  · rintro ⟨_, h⟩
    cases hget : ar.file_list[c]? with
    | none => simp [hget] at h
    | some fc => exact ⟨fc, rfl, by simpa [hget] using h⟩
  · rintro ⟨fc, hget, hpar⟩
    exact ⟨(List.getElem?_eq_some.mp hget).1, by simp [hget, hpar]⟩

theorem nodup_get_dir_list (ar : Archive) (hwf : WellFormed ar) (r : Nat) :
    (get_dir_list ar r).Nodup := by
  unfold get_dir_list
  exact List.Nodup.filter _ (hwf.index_perm.nodup_iff.mpr (List.nodup_range _))

/-- The subtree of `r` is `r` together with the subtrees of the children of `r`. -/
theorem InSubtree_iff_children (ar : Archive) (hwf : WellFormed ar) (r i : Nat)
    (hr : r < ar.file_list.length) :
    InSubtree ar.file_list r i ↔
      i = r ∨ ∃ c ∈ get_dir_list ar r, InSubtree ar.file_list c i := by
  constructor
  · intro h
    induction h with
    | root _ => exact Or.inl rfl
    | @child i fi hget hpar ih =>
      right
      rcases ih with heq | ⟨c, hc, hci⟩
      · exact ⟨i, (mem_get_dir_list ar hwf r i).mpr ⟨fi, hget, heq⟩,
          .root (List.getElem?_eq_some.mp hget).1⟩
      · exact ⟨c, hc, .child hget hci⟩
  · rintro (rfl | ⟨c, hc, hci⟩)
    · exact .root hr
    · obtain ⟨fc, hget, hpar⟩ := (mem_get_dir_list ar hwf r c).mp hc
      exact InSubtree.sub_trans (.child hget (by rw [hpar]; exact .root hr)) hci

/-- The subtrees of two different children of one entry share no entry. -/
theorem subtree_disjoint (ar : Archive) (hwf : WellFormed ar) (r c1 c2 i : Nat)
    (h1 : c1 ∈ get_dir_list ar r) (h2 : c2 ∈ get_dir_list ar r) (hne : c1 ≠ c2)
    (hi1 : InSubtree ar.file_list c1 i) (hi2 : InSubtree ar.file_list c2 i) : False := by
  obtain ⟨depth, _, hd⟩ := exists_depth ar.file_list hwf.acyclic
  obtain ⟨f1, hg1, hp1⟩ := (mem_get_dir_list ar hwf r c1).mp h1
  obtain ⟨f2, hg2, hp2⟩ := (mem_get_dir_list ar hwf r c2).mp h2
  have key : ∀ a b fa fb, ar.file_list[a]? = some fa → fa.parent = r →
      ar.file_list[b]? = some fb → fb.parent = r → a ≠ b →
      InSubtree ar.file_list a b → False := by
    intro a b fa fb hga hpa hgb hpb hab hsub
    cases hsub with
    | root _ => exact hab rfl
    | @child _ fb2 hgb2 hpar =>
      rw [hgb] at hgb2
      cases hgb2
      rw [hpb] at hpar
      have hle := InSubtree.sub_depth_le hd hpar
      have hlt := hd a fa hga (hpa ▸ hpar.sub_lt)
      rw [hpa] at hlt
      omega
  rcases InSubtree.sub_linear hi1 hi2 with h | h
  · exact key c1 c2 f1 f2 hg1 hp1 hg2 hp2 hne h
  · exact key c2 c1 f2 f1 hg2 hp2 hg1 hp1 (Ne.symm hne) h

/-- Below a non-directory entry there is nothing. -/
theorem InSubtree_of_file (ar : Archive) (hwf : WellFormed ar) (r i : Nat) (fr : FileInfo)
    (hget : ar.file_list[r]? = some fr) (hfile : fr.is_dir = false)
    (h : InSubtree ar.file_list r i) : i = r := by
  induction h with
  | root _ => rfl
  | @child i fi hgi _ ih =>
    have := hwf.parent_is_dir i fi fr hgi (by rw [ih]; exact hget)
    rw [hfile] at this
    cases this

theorem append_split_one {α : Type} {X Y A C : List α} {x : α} (h : X ++ Y = A ++ x :: C) :
    (∃ C1, X = A ++ x :: C1 ∧ C = C1 ++ Y) ∨ (∃ A1, A = X ++ A1 ∧ Y = A1 ++ x :: C) := by
  rcases List.append_eq_append_iff.mp h with ⟨a1, hA, hY⟩ | ⟨c1, hX, hZ⟩
  · exact Or.inr ⟨a1, hA, hY⟩
  · cases c1 with
    | nil =>
      refine Or.inr ⟨[], ?_, ?_⟩
      · simpa using hX.symm
      · simpa using hZ.symm
    | cons z c2 =>
      simp only [List.cons_append, List.cons.injEq] at hZ
      obtain ⟨rfl, rfl⟩ := hZ
      exact Or.inl ⟨c2, hX, rfl⟩

theorem append_split_two {α : Type} {X Y A C : List α} {x y : α}
    (h : X ++ Y = A ++ x :: y :: C) :
    (∃ C1, X = A ++ x :: y :: C1 ∧ C = C1 ++ Y) ∨ (X = A ++ [x] ∧ Y = y :: C) ∨
      (∃ A1, A = X ++ A1 ∧ Y = A1 ++ x :: y :: C) := by
  rcases append_split_one h with ⟨C1, hX, hC⟩ | h2
  · cases C1 with
    | nil =>
      right; left
      exact ⟨hX, by simpa using hC.symm⟩
    | cons z C2 =>
      simp only [List.cons_append, List.cons.injEq] at hC
      obtain ⟨rfl, rfl⟩ := hC
      exact Or.inl ⟨C2, hX, rfl⟩
  · exact Or.inr (Or.inr h2)

theorem noenter_split {L E A X : List Event} {d : Nat}
    (hL : ∀ e ∈ L, e.is_enter = false) (h : L ++ E = A ++ .enter d :: X) :
    ∃ A1, A = L ++ A1 ∧ E = A1 ++ .enter d :: X := by
  rcases append_split_one h with ⟨C1, hX, _⟩ | h2
  · have := hL (.enter d) (by rw [hX]; simp)
    simp [Event.is_enter] at this
  · exact h2

theorem DestPath_lift {ar : Archive} {r c d : Nat} {parent_dir p : wstring} {fr fc : FileInfo}
    (hgr : ar.file_list[r]? = some fr) (hgc : ar.file_list[c]? = some fc)
    (hpar : fc.parent = r)
    (h : DestPath ar c (add_trailing_slash parent_dir ++ fr.name) d p) :
    DestPath ar r parent_dir d p := by
  induction h with
  | @root fc2 hgc2 =>
    rw [hgc] at hgc2
    cases hgc2
    exact .child hgc (by rw [hpar]; exact .root hgr)
  | child hget _ ih => exact .child hget ih

theorem DestPath.dest_sub {ar : Archive} {r d : Nat} {parent_dir p : wstring}
    (h : DestPath ar r parent_dir d p) : InSubtree ar.file_list r d := by
  induction h with
  | root hget => exact .root (List.getElem?_eq_some.mp hget).1
  | child hget _ ih => exact .child hget ih

/-- In a well-formed tree an entry has one destination path. -/
theorem DestPath.dest_unique {ar : Archive} (hwf : WellFormed ar) {r d : Nat}
    {parent_dir p q : wstring} (hp : DestPath ar r parent_dir d p)
    (hq : DestPath ar r parent_dir d q) : p = q := by
  obtain ⟨depth, _, hd⟩ := exists_depth ar.file_list hwf.acyclic
  have hroot : ∀ (fr : FileInfo) (x : wstring), ar.file_list[r]? = some fr →
      DestPath ar r parent_dir fr.parent x → False := by
    intro fr x hget hx
    have hsub := hx.dest_sub
    have hle := InSubtree.sub_depth_le hd hsub
    have hlt := hd r fr hget hsub.sub_lt
    omega
  induction hp generalizing q with
  | @root fr hget =>
    cases hq with
    | @root fr2 hget2 =>
      rw [hget] at hget2
      cases hget2
      rfl
    | @child _ fc x hgc hx =>
      rw [hget] at hgc
      cases hgc
      exact (hroot fr x hget hx).elim
  | @child c fc x hgc hx ih =>
    cases hq with
    | @root fr2 hget2 =>
      rw [hgc] at hget2
      cases hget2
      exact (hroot fc x hgc hx).elim
    | @child _ fc2 y hgc2 hy =>
      rw [hgc] at hgc2
      cases hgc2
      rw [ih hy]

theorem WalkSegs.segs_head {ar : Archive} {pd : wstring} {cs : List Nat} {evs : List Event}
    {new : List Nat} (h : WalkSegs ar pd cs evs new) :
    evs = [] ∨ ∃ c rest, evs = .enter c :: rest := by
  cases h with
  | nil => exact Or.inl rfl
  | @cons c _ e1 e2 _ _ h1 _ =>
    obtain ⟨rest, rfl⟩ := h1.starts
    exact Or.inr ⟨c, rest ++ e2, rfl⟩

theorem WalkSegs.segs_files {ar : Archive} {pd : wstring} {cs : List Nat} {evs : List Event}
    {new : List Nat} (h : WalkSegs ar pd cs evs new) (i : Nat) :
    i ∈ new ↔ ∃ c ∈ cs, InSubtree ar.file_list c i ∧ is_file ar.file_list i := by
  induction h with
  | nil => simp
  | cons h1 _ ih =>
    rw [List.mem_append, h1.files, ih]
    simp only [List.mem_cons, exists_eq_or_imp]

theorem WalkSegs.segs_visits {ar : Archive} {pd : wstring} {cs : List Nat} {evs : List Event}
    {new : List Nat} (h : WalkSegs ar pd cs evs new) (i : Nat) :
    Event.enter i ∈ evs ↔ ∃ c ∈ cs, InSubtree ar.file_list c i := by
  induction h with
  | nil => simp
  | cons h1 _ ih =>
    rw [List.mem_append, h1.visits, ih]
    simp only [List.mem_cons, exists_eq_or_imp]

theorem WalkSegs.segs_nodup {ar : Archive} {pd : wstring} {cs : List Nat} {evs : List Event}
    {new : List Nat} (h : WalkSegs ar pd cs evs new) (hcs : cs.Nodup)
    (hdis : ∀ c1 ∈ cs, ∀ c2 ∈ cs, c1 ≠ c2 → ∀ i, InSubtree ar.file_list c1 i →
      InSubtree ar.file_list c2 i → False) :
    new.Nodup := by
  induction h with
  | nil => exact List.nodup_nil
  | @cons c cs e1 e2 n1 n2 h1 h2 ih =>
    rw [List.nodup_cons] at hcs
    rw [List.nodup_append]
    refine ⟨h1.nodup, ih hcs.2 ?_, ?_⟩
    · intro c1 hc1 c2 hc2
      exact hdis c1 (List.mem_cons_of_mem _ hc1) c2 (List.mem_cons_of_mem _ hc2)
    · intro i hi1 hi2
      obtain ⟨c2, hc2, hsub2, _⟩ := (h2.segs_files i).mp hi2
      have hsub1 := ((h1.files i).mp hi1).1
      refine hdis c (List.mem_cons_self _ _) c2 (List.mem_cons_of_mem _ hc2) ?_ i hsub1 hsub2
      rintro rfl
      exact hcs.1 hc2

theorem WalkSegs.segs_creates {ar : Archive} {pd : wstring} {cs : List Nat}
    {evs : List Event} {new : List Nat}
    (h : WalkSegs ar pd cs evs new) (c : Nat) (hc : c ∈ cs) (d : Nat)
    (hsub : InSubtree ar.file_list c d) (hdir : is_directory ar.file_list d) :
    ∃ A C p, DestPath ar c pd d p ∧ evs = A ++ .enter d :: .CreateDirectoryW p :: C := by
  induction h with
  | nil => simp at hc
  | @cons c1 cs e1 e2 n1 n2 h1 _ ih =>
    rcases List.mem_cons.mp hc with rfl | hc2
    · obtain ⟨A, C, p, hp, rfl⟩ := h1.creates d hsub hdir
      exact ⟨A, C ++ e2, p, hp, by simp⟩
    · obtain ⟨A, C, p, hp, rfl⟩ := ih hc2
      exact ⟨e1 ++ A, C, p, hp, by simp⟩

theorem WalkSegs.segs_creates_only {ar : Archive} {pd : wstring} {cs : List Nat}
    {evs : List Event} {new : List Nat} (h : WalkSegs ar pd cs evs new) :
    ∀ A C d p, evs = A ++ .enter d :: .CreateDirectoryW p :: C →
      is_directory ar.file_list d ∧ ∃ c ∈ cs, DestPath ar c pd d p := by
  induction h with
  | nil =>
    intro A C d p h
    simp at h
  | @cons c1 cs e1 e2 n1 n2 h1 h2 ih =>
    intro A C d p h
    rcases append_split_two h with ⟨C1, hX, _⟩ | ⟨_, hY⟩ | ⟨A1, _, hY⟩
    · obtain ⟨hd, hp⟩ := h1.creates_only A C1 d p hX
      exact ⟨hd, c1, List.mem_cons_self _ _, hp⟩
    · rcases h2.segs_head with hnil | ⟨c, rest, hhead⟩
      · rw [hnil] at hY; cases hY
      · rw [hhead] at hY; cases hY
    · obtain ⟨hd, c, hc, hp⟩ := ih A1 C d p hY
      exact ⟨hd, c, List.mem_cons_of_mem _ hc, hp⟩

theorem WalkSegs.segs_requests {ar : Archive} {pd : wstring} {cs : List Nat}
    {evs : List Event} {new : List Nat} (h : WalkSegs ar pd cs evs new) :
    ∀ p, Event.CreateDirectoryW p ∈ evs →
      ∃ c ∈ cs, ∃ d, InSubtree ar.file_list c d ∧ is_directory ar.file_list d ∧
        DestPath ar c pd d p := by
  induction h with
  | nil =>
    intro p h
    simp at h
  | @cons c1 cs e1 e2 n1 n2 h1 _ ih =>
    intro p h
    rcases List.mem_append.mp h with h | h
    · obtain ⟨d, hsub, hd, hp⟩ := h1.requests p h
      exact ⟨c1, List.mem_cons_self _ _, d, hsub, hd, hp⟩
    · obtain ⟨c, hc, d, hsub, hd, hp⟩ := ih p h
      exact ⟨c, List.mem_cons_of_mem _ hc, d, hsub, hd, hp⟩

theorem WalkSegs.segs_parent_first {ar : Archive} {pd : wstring} {cs : List Nat}
    {evs : List Event} {new : List Nat} (h : WalkSegs ar pd cs evs new) :
    ∀ c A C, evs = A ++ .enter c :: C →
      c ∈ cs ∨ ∃ fc p A1 A2, ar.file_list[c]? = some fc ∧
        (∃ c0 ∈ cs, DestPath ar c0 pd fc.parent p) ∧
        A = A1 ++ .enter fc.parent :: .CreateDirectoryW p :: A2 := by
  induction h with
  | nil =>
    intro c A C h
    simp at h
  | @cons c1 cs e1 e2 n1 n2 h1 _ ih =>
    intro c A C h
    rcases append_split_one h with ⟨C1, hX, _⟩ | ⟨A1, hA, hY⟩
    · rcases h1.parent_first c A C1 hX with rfl | ⟨fc, p, B1, B2, hget, hp, hB⟩
      · exact Or.inl (List.mem_cons_self _ _)
      · exact Or.inr ⟨fc, p, B1, B2, hget, ⟨c1, List.mem_cons_self _ _, hp⟩, hB⟩
    · rcases ih c A1 C hY with hc | ⟨fc, p, B1, B2, hget, ⟨c0, hc0, hp⟩, hB⟩
      · exact Or.inl (List.mem_cons_of_mem _ hc)
      · exact Or.inr ⟨fc, p, e1 ++ B1, B2, hget, ⟨c0, List.mem_cons_of_mem _ hc0, hp⟩, by
          rw [hA, hB]; simp⟩

theorem WalkSpec_file (ar : Archive) (hwf : WellFormed ar) (r : Nat) (fr : FileInfo)
    (parent_dir : wstring)
    (hget : ar.file_list[r]? = some fr) (hfile : fr.is_dir = false) :
    WalkSpec ar r parent_dir [.enter r] [r] := by
  have hr : r < ar.file_list.length := (List.getElem?_eq_some.mp hget).1
  refine ⟨⟨[], rfl⟩, List.nodup_singleton r, ?_, ?_, ?_, ?_, ?_, ?_⟩
  · intro i
    constructor
    · intro hi
      rw [List.mem_singleton] at hi
      subst hi
      exact ⟨.root hr, fr, hget, hfile⟩
    · rintro ⟨hsub, _⟩
      rw [InSubtree_of_file ar hwf r i fr hget hfile hsub]
      exact List.mem_singleton_self r
  · intro i
    constructor
    · intro hi
      simp only [List.mem_singleton, Event.enter.injEq] at hi
      subst hi
      exact .root hr
    · intro hsub
      rw [InSubtree_of_file ar hwf r i fr hget hfile hsub]
      exact List.mem_singleton_self _
  · rintro d hsub ⟨fd, hgd, hdd⟩
    rw [InSubtree_of_file ar hwf r d fr hget hfile hsub, hget] at hgd
    cases hgd
    rw [hfile] at hdd
    cases hdd
  · intro A C d p h
    have := congrArg List.length h
    simp at this
    omega
  · intro p h
    simp at h
  · intro c A C h
    cases A with
    | nil =>
      simp only [List.nil_append, List.cons.injEq, Event.enter.injEq] at h
      exact Or.inl h.1.symm
    | cons a A1 =>
      have := congrArg List.length h
      simp at this

theorem WalkSpec_dir (ar : Archive) (hwf : WellFormed ar) (r : Nat) (fr : FileInfo)
    (parent_dir : wstring)
    (hget : ar.file_list[r]? = some fr) (hdir : fr.is_dir = true)
    (L evs : List Event) (new : List Nat) (hL : ∀ e ∈ L, e.is_enter = false)
    (hLp : ∀ q, Event.CreateDirectoryW q ∈ L → q = add_trailing_slash parent_dir ++ fr.name)
    (hsegs : WalkSegs ar (add_trailing_slash parent_dir ++ fr.name) (get_dir_list ar r)
      evs new) :
    WalkSpec ar r parent_dir
      (.enter r :: .CreateDirectoryW (add_trailing_slash parent_dir ++ fr.name) :: L ++ evs)
      new := by
  have hr : r < ar.file_list.length := (List.getElem?_eq_some.mp hget).1
  have hL2 : ∀ e ∈ Event.CreateDirectoryW (add_trailing_slash parent_dir ++ fr.name) :: L,
      e.is_enter = false := by
    intro e he
    rcases List.mem_cons.mp he with rfl | he
    · rfl
    · exact hL e he
  have hroot : DestPath ar r parent_dir r (add_trailing_slash parent_dir ++ fr.name) :=
    .root hget
  have hlift : ∀ c ∈ get_dir_list ar r, ∀ d q,
      DestPath ar c (add_trailing_slash parent_dir ++ fr.name) d q →
      DestPath ar r parent_dir d q := by
    intro c hc d q h
    obtain ⟨fc, hgc, hpc⟩ := (mem_get_dir_list ar hwf r c).mp hc
    exact DestPath_lift hget hgc hpc h
  refine ⟨⟨_, rfl⟩, ?_, ?_, ?_, ?_, ?_, ?_, ?_⟩
  · exact hsegs.segs_nodup (nodup_get_dir_list ar hwf r)
      (fun c1 h1 c2 h2 hne i => subtree_disjoint ar hwf r c1 c2 i h1 h2 hne)
  · intro i
    rw [hsegs.segs_files, InSubtree_iff_children ar hwf r i hr]
    constructor
    · rintro ⟨c, hc, hsub, hfile⟩
      exact ⟨Or.inr ⟨c, hc, hsub⟩, hfile⟩
    · rintro ⟨rfl | ⟨c, hc, hsub⟩, hfile⟩
      · obtain ⟨fi, hgi, hfi⟩ := hfile
        rw [hget] at hgi
        cases hgi
        rw [hdir] at hfi
        cases hfi
      · exact ⟨c, hc, hsub, hfile⟩
  · intro i
    rw [InSubtree_iff_children ar hwf r i hr, ← hsegs.segs_visits]
    simp only [List.cons_append, List.mem_cons, Event.enter.injEq, List.mem_append,
      reduceCtorEq, false_or]
    constructor
    · rintro (h | h | h)
      · exact Or.inl h
      · have := hL _ h
        simp [Event.is_enter] at this
      · exact Or.inr h
    · rintro (h | h)
      · exact Or.inl h
      · exact Or.inr (Or.inr h)
  · intro d hsub hd
    rcases (InSubtree_iff_children ar hwf r d hr).mp hsub with rfl | ⟨c, hc, hcd⟩
    · exact ⟨[], L ++ evs, _, hroot, by simp⟩
    · obtain ⟨A, C, q, hq, rfl⟩ := hsegs.segs_creates c hc d hcd hd
      exact ⟨.enter r :: .CreateDirectoryW (add_trailing_slash parent_dir ++ fr.name)
        :: L ++ A, C, q, hlift c hc d q hq, by simp⟩
  · intro A C d q h
    cases A with
    | nil =>
      simp only [List.nil_append, List.cons_append, List.cons.injEq, Event.enter.injEq,
        Event.CreateDirectoryW.injEq] at h
      obtain ⟨rfl, rfl, _⟩ := h
      exact ⟨⟨fr, hget, hdir⟩, hroot⟩
    | cons a A1 =>
      simp only [List.cons_append, List.cons.injEq] at h
      have h2 : (Event.CreateDirectoryW (add_trailing_slash parent_dir ++ fr.name) :: L) ++ evs
          = A1 ++ .enter d :: .CreateDirectoryW q :: C := by simpa using h.2
      obtain ⟨A2, _, hE⟩ := noenter_split hL2 h2
      obtain ⟨hd, c, hc, hq⟩ := hsegs.segs_creates_only A2 C d q hE
      exact ⟨hd, hlift c hc d q hq⟩
  · intro q h
    simp only [List.cons_append, List.mem_cons, reduceCtorEq, Event.CreateDirectoryW.injEq,
      List.mem_append, false_or] at h
    rcases h with h | h | h
    · exact ⟨r, .root hr, ⟨fr, hget, hdir⟩, h ▸ hroot⟩
    · exact ⟨r, .root hr, ⟨fr, hget, hdir⟩, hLp q h ▸ hroot⟩
    · obtain ⟨c, hc, d, hsub, hd, hq⟩ := hsegs.segs_requests q h
      exact ⟨d, (InSubtree_iff_children ar hwf r d hr).mpr (Or.inr ⟨c, hc, hsub⟩), hd,
        hlift c hc d q hq⟩
  · intro c A C h
    cases A with
    | nil =>
      simp only [List.nil_append, List.cons_append, List.cons.injEq, Event.enter.injEq] at h
      exact Or.inl h.1.symm
    | cons a A1 =>
      right
      simp only [List.cons_append, List.cons.injEq] at h
      obtain ⟨rfl, h2⟩ := h
      have h3 : (Event.CreateDirectoryW (add_trailing_slash parent_dir ++ fr.name) :: L) ++ evs
          = A1 ++ .enter c :: C := by
        simpa using h2
      obtain ⟨A2, hA, hE⟩ := noenter_split hL2 h3
      rcases hsegs.segs_parent_first c A2 C hE with hc | ⟨fc, q, B1, B2, hgc, ⟨c0, hc0, hq⟩, hB⟩
      · obtain ⟨fc, hgc, hpc⟩ := (mem_get_dir_list ar hwf r c).mp hc
        refine ⟨fc, add_trailing_slash parent_dir ++ fr.name, [], L ++ A2, hgc, ?_, ?_⟩
        · rw [hpc]; exact hroot
        · rw [hA, hpc]; simp
      · exact ⟨fc, q, .enter r :: .CreateDirectoryW (add_trailing_slash parent_dir ++ fr.name)
          :: L ++ B1, B2, hgc, hlift c0 hc0 _ q hq, by rw [hA, hB]; simp⟩

theorem prepare_extract_create_dir_mono (env : Env) (dir_path : wstring) :
    ∀ (fuel : Nat) (st : Job) (r : Res Unit),
      prepare_extract_create_dir env dir_path fuel st = some r →
      ∀ k, prepare_extract_create_dir env dir_path (fuel + k) st = some r := by
  intro fuel
  induction fuel with
  | zero => intro st r h; simp [prepare_extract_create_dir] at h
  | succ f ih =>
    intro st r h k
    rw [Nat.add_right_comm]
    unfold prepare_extract_create_dir at h ⊢
    cases hc : env.CreateDirectoryW st.trace dir_path with
    | none => simpa [hc] using h
    | some last_error =>
      simp only [hc] at h ⊢
      by_cases he : last_error = ERROR_ALREADY_EXISTS
      · simpa [he] using h
      · simp only [he, if_false] at h ⊢
        cases hr : retry_or_ignore_error env dir_path (CHECK_SYS_error last_error)
            (st.emit (.CreateDirectoryW dir_path)) with
        | fail e st2 => simpa [hr] using h
        | ok b st2 =>
          cases b with
          | true => simpa [hr] using h
          | false =>
            simp only [hr] at h ⊢
            exact ih st2 r h k

theorem retry_or_ignore_error_trace (env : Env) (path : wstring) (error : Error) (st : Job) :
    ∃ L, (retry_or_ignore_error env path error st).job.trace = st.trace ++ L ∧
      (∀ e ∈ L, e.is_enter = false) ∧ ∀ q, Event.CreateDirectoryW q ∉ L := by
  cases hflag : st.ignore_errors
  · refine ⟨[.error_retry_ignore_dialog path error true], ?_, ?_, ?_⟩
    · cases hresp : env.error_retry_ignore_dialog st.trace path error true <;>
        simp [retry_or_ignore_error, hflag, hresp, Res.job, Job.emit]
    · intro e he
      rw [List.mem_singleton] at he
      subst he
      rfl
    · intro q hq
      simp at hq
  · exact ⟨[], by simp [retry_or_ignore_error, hflag, Res.job], by simp, by simp⟩

theorem prepare_extract_create_dir_trace (env : Env) (dir_path : wstring) :
    ∀ (fuel : Nat) (st st1 : Job),
      prepare_extract_create_dir env dir_path fuel st = some (.ok () st1) →
      ∃ L, st1.trace = st.trace ++ .CreateDirectoryW dir_path :: L ∧
        (∀ e ∈ L, e.is_enter = false) ∧
        ∀ q, Event.CreateDirectoryW q ∈ L → q = dir_path := by
  intro fuel
  induction fuel with
  | zero => intro st st1 h; simp [prepare_extract_create_dir] at h
  | succ f ih =>
    intro st st1 h
    unfold prepare_extract_create_dir at h
    cases hc : env.CreateDirectoryW st.trace dir_path with
    | none =>
      simp only [hc, Option.some.injEq, Res.ok.injEq, true_and] at h
      subst h
      exact ⟨[], by simp [Job.emit], by simp, by simp⟩
    | some last_error =>
      simp only [hc] at h
      by_cases he : last_error = ERROR_ALREADY_EXISTS
      · simp only [he, if_true, Option.some.injEq, Res.ok.injEq, true_and] at h
        subst h
        exact ⟨[], by simp [Job.emit], by simp, by simp⟩
      · simp only [he, if_false] at h
        obtain ⟨L1, hL1, hn1, hq1⟩ := retry_or_ignore_error_trace env dir_path
          (CHECK_SYS_error last_error) (st.emit (.CreateDirectoryW dir_path))
        cases hr : retry_or_ignore_error env dir_path (CHECK_SYS_error last_error)
            (st.emit (.CreateDirectoryW dir_path)) with
        | fail e st2 => simp [hr] at h
        | ok b st2 =>
          rw [hr] at hL1
          simp only [Res.job, Job.emit] at hL1
          cases b with
          | true =>
            simp only [hr, Option.some.injEq, Res.ok.injEq, true_and] at h
            subst h
            exact ⟨L1, by rw [hL1]; simp, hn1, fun q hq => (hq1 q hq).elim⟩
          | false =>
            simp only [hr] at h
            obtain ⟨L2, hL2, hn2, hq2⟩ := ih st2 st1 h
            refine ⟨L1 ++ .CreateDirectoryW dir_path :: L2, by rw [hL2, hL1]; simp, ?_, ?_⟩
            · intro e hmem
              rcases List.mem_append.mp hmem with h1 | h2
              · exact hn1 e h1
              · rcases List.mem_cons.mp h2 with rfl | h3
                · rfl
                · exact hn2 e h3
            · intro q hmem
              rcases List.mem_append.mp hmem with h1 | h2
              · exact (hq1 q h1).elim
              · rcases List.mem_cons.mp h2 with h3 | h3
                · exact Event.CreateDirectoryW.inj h3
                · exact hq2 q h3

/-- If the walk of every entry of `cs` returns (with every fuel above some bound) and meets
`WalkSpec`, then so does the `for_each` loop over `cs`, piece by piece. -/
theorem walk_children (env : Env) (ar : Archive) (dir_path : wstring) :
    ∀ cs : List Nat,
      (∀ c ∈ cs, ∀ (indices : List Nat) (st : Job), ∃ fuel0 new evs st1,
        (∀ fuel, fuel0 ≤ fuel →
          prepare_extract env ar fuel c dir_path indices st
            = some (.ok (indices ++ new) st1)) ∧
        st1.trace = st.trace ++ evs ∧ WalkSpec ar c dir_path evs new) →
      ∀ (indices : List Nat) (st : Job), ∃ fuel0 new evs st1,
        (∀ fuel, fuel0 ≤ fuel →
          cs.foldl
              (for_each_step fun file_index indices st =>
                prepare_extract env ar fuel file_index dir_path indices st)
              (some (.ok indices st))
            = some (.ok (indices ++ new) st1)) ∧
        st1.trace = st.trace ++ evs ∧ WalkSegs ar dir_path cs evs new := by
  intro cs
  induction cs with
  | nil =>
    intro _ indices st
    exact ⟨0, [], [], st, by simp, by simp, .nil⟩
  | cons c cs ih =>
    intro hcs indices st
    obtain ⟨f1, n1, e1, st1, hrun1, htr1, hw1⟩ := hcs c (List.mem_cons_self _ _) indices st
    obtain ⟨f2, n2, e2, st2, hrun2, htr2, hw2⟩ :=
      ih (fun c2 hc2 => hcs c2 (List.mem_cons_of_mem _ hc2)) (indices ++ n1) st1
    refine ⟨max f1 f2, n1 ++ n2, e1 ++ e2, st2, ?_, ?_, .cons hw1 hw2⟩
    · intro fuel hf
      have h1 := hrun1 fuel (le_trans (le_max_left _ _) hf)
      have h2 := hrun2 fuel (le_trans (le_max_right _ _) hf)
      rw [List.foldl_cons]
      simp only [for_each_step, h1]
      rw [← List.append_assoc]
      exact h2
    · rw [htr2, htr1, List.append_assoc]

theorem walk_step (env : Env) (ar : Archive) (hwf : WellFormed ar)
    (hret : CreateDirReturns env) (r : Nat) (hr : r < ar.file_list.length)
    (hkids : ∀ c ∈ get_dir_list ar r, ∀ (parent_dir : wstring) (indices : List Nat) (st : Job),
      ∃ fuel0 new evs st1,
        (∀ fuel, fuel0 ≤ fuel →
          prepare_extract env ar fuel c parent_dir indices st
            = some (.ok (indices ++ new) st1)) ∧
        st1.trace = st.trace ++ evs ∧ WalkSpec ar c parent_dir evs new)
    (parent_dir : wstring) (indices : List Nat) (st : Job) :
    ∃ fuel0 new evs st1,
      (∀ fuel, fuel0 ≤ fuel →
        prepare_extract env ar fuel r parent_dir indices st
          = some (.ok (indices ++ new) st1)) ∧
      st1.trace = st.trace ++ evs ∧ WalkSpec ar r parent_dir evs new := by
  have hget : ar.file_list[r]? = some ar.file_list[r] := List.getElem?_eq_getElem hr
  cases hdir : ar.file_list[r].is_dir with
  | false =>
    refine ⟨1, [r], [.enter r], st.emit (.enter r), ?_, by simp [Job.emit],
      WalkSpec_file ar hwf r _ parent_dir hget hdir⟩
    intro fuel hf
    obtain ⟨f, rfl⟩ : ∃ f, fuel = f + 1 := ⟨fuel - 1, by omega⟩
    simp [prepare_extract, hget, hdir]
  | true =>
    obtain ⟨fl, stl, hloop⟩ := hret (add_trailing_slash parent_dir ++ ar.file_list[r].name)
      (st.emit (.enter r))
    obtain ⟨L, hL, hLn, hLp⟩ := prepare_extract_create_dir_trace env _ fl _ stl hloop
    obtain ⟨fk, new, evs, st1, hrun, htr, hsegs⟩ :=
      walk_children env ar (add_trailing_slash parent_dir ++ ar.file_list[r].name)
        (get_dir_list ar r) (fun c hc => hkids c hc _) indices stl
    refine ⟨max fl fk + 1, new,
      .enter r :: .CreateDirectoryW (add_trailing_slash parent_dir ++ ar.file_list[r].name)
        :: L ++ evs, st1, ?_, ?_,
      WalkSpec_dir ar hwf r _ parent_dir hget hdir L evs new hLn hLp hsegs⟩
    · intro fuel hf
      obtain ⟨f, rfl⟩ : ∃ f, fuel = f + 1 := ⟨fuel - 1, by omega⟩
      have hf1 : fl ≤ f := by have := le_max_left fl fk; omega
      have hf2 : fk ≤ f := by have := le_max_right fl fk; omega
      have hl2 := prepare_extract_create_dir_mono env _ fl _ _ hloop (f - fl)
      rw [Nat.add_sub_cancel' hf1] at hl2
      simp only [prepare_extract, hget, hdir, if_true, hl2]
      exact hrun f hf2
    · rw [htr, hL]
      simp [Job.emit]

theorem walk_main (env : Env) (ar : Archive) (hwf : WellFormed ar)
    (hret : CreateDirReturns env) (depth : Nat → Nat)
    (hbound : ∀ i, i < ar.file_list.length → depth i ≤ ar.file_list.length)
    (hdepth : ∀ i fi, ar.file_list[i]? = some fi → fi.parent < ar.file_list.length →
      depth fi.parent < depth i) :
    ∀ (m r : Nat), r < ar.file_list.length → ar.file_list.length - depth r ≤ m →
      ∀ (parent_dir : wstring) (indices : List Nat) (st : Job), ∃ fuel0 new evs st1,
        (∀ fuel, fuel0 ≤ fuel →
          prepare_extract env ar fuel r parent_dir indices st
            = some (.ok (indices ++ new) st1)) ∧
        st1.trace = st.trace ++ evs ∧ WalkSpec ar r parent_dir evs new := by
  intro m
  induction m with
  | zero =>
    intro r hr hm
    refine walk_step env ar hwf hret r hr ?_
    intro c hc
    obtain ⟨fc, hgc, hpc⟩ := (mem_get_dir_list ar hwf r c).mp hc
    have h1 := hdepth c fc hgc (by rw [hpc]; exact hr)
    have h2 := hbound c (List.getElem?_eq_some.mp hgc).1
    rw [hpc] at h1
    omega
  | succ m ih =>
    intro r hr hm
    refine walk_step env ar hwf hret r hr ?_
    intro c hc
    obtain ⟨fc, hgc, hpc⟩ := (mem_get_dir_list ar hwf r c).mp hc
    have hlt := (List.getElem?_eq_some.mp hgc).1
    have h1 := hdepth c fc hgc (by rw [hpc]; exact hr)
    have h2 := hbound c hlt
    rw [hpc] at h1
    exact ih c hlt (by omega)

/-- C2, as amended. For a well-formed (acyclic, parent-indexed) file tree and a root index
`r`, in an environment in which every directory-creation retry loop returns normally,
`prepare_extract r` returns with every fuel above some bound; it appends to the index list
exactly the non-directory entries of the subtree of `r`, each once and never a directory;
it visits exactly the entries of the subtree; on entering an entry it issues a
create-directory request exactly when the entry is a directory, and the request names the
destination path of that directory (the path of its parent, a separating backslash, its
name; `parent_dir` is the parent path of `r`); every create-directory request it issues,
first attempt or retry, names the destination path of a directory of the subtree; and every
visit of an entry other than `r` comes after the create-directory request issued, for the
destination path of its parent, on entering its parent. -/
theorem prepare_extract_walk (env : Env) (ar : Archive) (r : Nat) (parent_dir : wstring)
    (indices : List Nat) (st : Job) (hwf : WellFormed ar) (hret : CreateDirReturns env)
    (hr : r < ar.file_list.length) :
    ∃ fuel0 new evs st1,
      (∀ fuel, fuel0 ≤ fuel →
        prepare_extract env ar fuel r parent_dir indices st
          = some (.ok (indices ++ new) st1)) ∧
      st1.trace = st.trace ++ evs ∧ WalkSpec ar r parent_dir evs new := by
  obtain ⟨depth, hbound, hdepth⟩ := exists_depth ar.file_list hwf.acyclic
  exact walk_main env ar hwf hret depth hbound hdepth _ r hr (Nat.le_refl _) parent_dir
    indices st

theorem archive1_well_formed : WellFormed archive1 := by
  refine ⟨by decide, ?_, ?_⟩
  · intro i fi fp h1 h2
    have hi : i < 4 := (List.getElem?_eq_some.mp h1).1
    have hp : fi.parent < 4 := (List.getElem?_eq_some.mp h2).1
    interval_cases i <;> simp [archive1] at h1 <;> subst h1 <;> simp [archive1] at h2 hp ⊢ <;>
      subst h2 <;> rfl
  · intro i hi
    have hi : i < 4 := hi
    interval_cases i <;> rfl

theorem env_answers_returns (r : RetryDialogResult) (a : OverwriteAction) :
    CreateDirReturns (env_answers r a) := by
  intro dir_path st
  exact ⟨1, st.emit (.CreateDirectoryW dir_path), rfl⟩

/-- C2, exercised on `archive1` with root `top` in an environment where every directory
can be created. -/
theorem prepare_extract_walk_witness :
    WellFormed archive1 ∧ CreateDirReturns (env_answers .rdrRetry .oaYes) ∧
    0 < archive1.file_list.length ∧
    ∃ fuel0 new evs st1,
      (∀ fuel, fuel0 ≤ fuel →
        prepare_extract (env_answers .rdrRetry .oaYes) archive1 fuel 0 ['C', ':'] [] job0
          = some (.ok ([] ++ new) st1)) ∧
      st1.trace = job0.trace ++ evs ∧ WalkSpec archive1 0 ['C', ':'] evs new :=
  ⟨archive1_well_formed, env_answers_returns _ _, by decide,
    prepare_extract_walk (env_answers .rdrRetry .oaYes) archive1 0 ['C', ':'] [] job0
      archive1_well_formed (env_answers_returns _ _) (by decide)⟩

/-- C2 as stated fails. On the well-formed `archive1` with root `top`, when creating the
directory fails and the user answers Cancel, `prepare_extract` raises `E_ABORT` right
after the first create request (and gives no result at all with less fuel): it returns
with no fuel, and the files 2 and 3 of the subtree are neither visited nor appended. -/
theorem prepare_extract_abort_counterexample :
    WellFormed archive1 ∧ 0 < archive1.file_list.length ∧
    InSubtree archive1.file_list 0 3 ∧ is_file archive1.file_list 3 ∧
    (∀ fuel, prepare_extract (env_mkdir_fails .rdrCancel) archive1 (fuel + 2) 0 ['C', ':'] []
        job0
      = some (.fail ⟨E_ABORT⟩
          { job0 with trace := [.enter 0, .CreateDirectoryW ['C', ':', '\\', 't', 'o', 'p'],
              .error_retry_ignore_dialog ['C', ':', '\\', 't', 'o', 'p'] ⟨0x80070005⟩
                true] })) ∧
    prepare_extract (env_mkdir_fails .rdrCancel) archive1 1 0 ['C', ':'] [] job0 = none ∧
    prepare_extract (env_mkdir_fails .rdrCancel) archive1 0 0 ['C', ':'] [] job0 = none := by
  refine ⟨archive1_well_formed, by decide, ?_, ⟨_, rfl, rfl⟩, ?_, rfl, rfl⟩
  · exact @InSubtree.child _ _ 3 ⟨['b'], 0x20, 0, 0, 0, 0, 0, false⟩ rfl (.root (by decide))
  · intro fuel
    rfl

/-! ### Destination path of a file -/

theorem GetStream_path_chain (file_list : FileList) (src_dir_index : Nat) (p : Nat)
    (ps : List Nat) (h : ParentChain file_list src_dir_index p ps) :
    ∀ (fuel : Nat) (file_path : wstring), ps.length + 1 ≤ fuel →
      GetStream_path file_list src_dir_index fuel p file_path
        = some (ancestors_path file_list ps ++ file_path) := by
  induction h with
  | root =>
    intro fuel file_path hf
    obtain ⟨f, rfl⟩ : ∃ f, fuel = f + 1 := ⟨fuel - 1, by omega⟩
    simp [GetStream_path, ancestors_path]
  | @step p info ps hne hget _ ih =>
    intro fuel file_path hf
    obtain ⟨f, rfl⟩ : ∃ f, fuel = f + 1 := ⟨fuel - 1, by omega⟩
    have hf2 : ps.length + 1 ≤ f := by simpa using hf
    simp [GetStream_path, hne, hget, ih f _ hf2, ancestors_path, name_of]

/-- C3. For a file index `index` whose parent chain `p1, ..., pk` (the list `ps`) reaches
the extraction root `src_dir_index`, the parent walk of `GetStream` ends (any fuel above
the chain length is enough) and, in extract mode, `GetStream` carries on with the member
`file_path` set to `dst_dir \ name pk \ ... \ name p1 \ name index`: the names of the
ancestors strictly below the extraction root, outermost first, then the name of the entry;
the name of the extraction root is not part of the path. -/
theorem GetStream_resolves_path (env : Env) (file_list : FileList) (src_dir_index : Nat)
    (dst_dir : wstring) (index : Nat) (file_info : FileInfo) (ps : List Nat) (st : Job)
    (fuel : Nat) (hget : file_list[index]? = some file_info)
    (hchain : ParentChain file_list src_dir_index file_info.parent ps)
    (hfuel : ps.length + 1 ≤ fuel) :
    GetStream_path file_list src_dir_index fuel file_info.parent file_info.name
      = some (ancestors_path file_list ps ++ file_info.name) ∧
    GetStream env file_list src_dir_index dst_dir fuel index kExtract st
      = GetStream_body env fuel
          { st with file_info := file_info,
                    file_path := dst_dir ++ ['\\'] ++ (ancestors_path file_list ps
                      ++ file_info.name) } := by
  have h := GetStream_path_chain file_list src_dir_index _ ps hchain fuel file_info.name hfuel
  refine ⟨h, ?_⟩
  simp [GetStream, hget, h]

/-- C3, exercised: `top/dir/a.txt` extracted from the sentinel root into `C:` resolves to
`C:\top\dir\a`, and extracted from inside `top` (index 0) it resolves to `C:\dir\a`. -/
theorem GetStream_resolves_path_witness :
    GetStream_path archive1.file_list 0xFFFFFFFF 3 1 ['a']
      = some ['t', 'o', 'p', '\\', 'd', 'i', 'r', '\\', 'a'] ∧
    GetStream (env_answers .rdrIgnore .oaYes) archive1.file_list 0 ['C', ':'] 2 2 kExtract job0
      = GetStream_body (env_answers .rdrIgnore .oaYes) 2
          { job0 with file_info := ⟨['a'], 0x20, 0, 0, 0, 10, 1, false⟩,
                      file_path := ['C', ':', '\\', 'd', 'i', 'r', '\\', 'a'] } :=
  ⟨(GetStream_resolves_path (env_answers .rdrIgnore .oaYes) archive1.file_list 0xFFFFFFFF
      ['C', ':'] 2 ⟨['a'], 0x20, 0, 0, 0, 10, 1, false⟩ [1, 0] job0 3 rfl
      (.step (by decide) rfl (.step (by decide) rfl .root)) (by decide)).1,
   (GetStream_resolves_path (env_answers .rdrIgnore .oaYes) archive1.file_list 0
      ['C', ':'] 2 ⟨['a'], 0x20, 0, 0, 0, 10, 1, false⟩ [1] job0 2 rfl
      (.step (by decide) rfl .root) (by decide)).2⟩

/-! ### Overwrite policy -/

theorem PolicyFrame.frame_refl (st : Job) : PolicyFrame st st := ⟨rfl, rfl⟩

theorem PolicyFrame.frame_trans {a b c : Job} (h1 : PolicyFrame a b) (h2 : PolicyFrame b c) :
    PolicyFrame a c :=
  ⟨h2.1.trans h1.1, h2.2.trans h1.2⟩

theorem PolicyFrame.frame_emit (st : Job) (ev : Event) (h : ev.is_overwrite_dialog = false) :
    PolicyFrame st (st.emit ev) := by
  simp [PolicyFrame, Job.emit, List.filter_append, h]

theorem retry_or_ignore_error_frame (env : Env) (path : wstring) (error : Error) (st : Job) :
    PolicyFrame st (retry_or_ignore_error env path error st).job := by
  cases hflag : st.ignore_errors <;>
    cases hresp : env.error_retry_ignore_dialog st.trace path error true <;>
    simp [retry_or_ignore_error, hflag, hresp, Res.job, Job.emit, PolicyFrame,
      List.filter_append, Event.is_overwrite_dialog]

theorem open_loop_frame (env : Env) (file_path : wstring) :
    ∀ (fuel : Nat) (error_state : Bool) (st : Job) (r : Res (HANDLE × Bool)),
      FileExtractStream.open_loop env file_path fuel error_state st = some r →
      PolicyFrame st r.job := by
  intro fuel
  induction fuel with
  | zero => intro es st r h; simp [FileExtractStream.open_loop] at h
  | succ f ih =>
    intro es st r h
    have h1 : PolicyFrame st (st.emit (.CreateFileW file_path)) := PolicyFrame.frame_emit st _ rfl
    unfold FileExtractStream.open_loop at h
    cases hc : env.CreateFileW st.trace file_path with
    | ok hd =>
      simp only [hc] at h
      cases h
      exact h1
    | error last_error =>
      simp only [hc] at h
      have h2 := retry_or_ignore_error_frame env file_path (CHECK_SYS_error last_error)
        (st.emit (.CreateFileW file_path))
      cases hr : retry_or_ignore_error env file_path (CHECK_SYS_error last_error)
          (st.emit (.CreateFileW file_path)) with
      | fail e st2 =>
        rw [hr] at h h2
        cases h
        exact h1.frame_trans h2
      | ok b st2 =>
        rw [hr] at h h2
        cases b with
        | true => cases h; exact h1.frame_trans h2
        | false => exact (h1.frame_trans h2).frame_trans (ih true st2 r h)

theorem SetFilePointerEx_job (env : Env) (h : HANDLE) (position : Nat) (st : Job) :
    (SetFilePointerEx env h position st).2 = st.emit (.SetFilePointerEx h position) := by
  unfold SetFilePointerEx; cases h <;> rfl

theorem SetEndOfFile_job (env : Env) (h : HANDLE) (st : Job) :
    (SetEndOfFile env h st).2 = st.emit (.SetEndOfFile h) := by
  unfold SetEndOfFile; cases h <;> rfl

theorem allocate_frame (env : Env) (s : FileExtractStream) (st : Job) :
    PolicyFrame st (s.allocate env st).job := by
  unfold FileExtractStream.allocate
  by_cases hsz : st.file_info.size = 0
  · simp [hsz, Res.job, PolicyFrame]
  · simp only [hsz, ne_eq, not_false_eq_true, if_true]
    have e1 := SetFilePointerEx_job env s.h_file st.file_info.size st
    rcases h1 : SetFilePointerEx env s.h_file st.file_info.size st with ⟨r1, st1⟩
    rw [h1] at e1
    simp only at e1
    subst e1
    have f1 : PolicyFrame st (st.emit (.SetFilePointerEx s.h_file st.file_info.size)) :=
      PolicyFrame.frame_emit st _ rfl
    cases r1 with
    | some e => exact f1
    | none =>
      simp only
      have e2 := SetEndOfFile_job env s.h_file
        (st.emit (.SetFilePointerEx s.h_file st.file_info.size))
      rcases h2 : SetEndOfFile env s.h_file
        (st.emit (.SetFilePointerEx s.h_file st.file_info.size)) with ⟨r2, st2⟩
      rw [h2] at e2
      simp only at e2
      subst e2
      have f2 := f1.frame_trans (PolicyFrame.frame_emit _ (.SetEndOfFile s.h_file) rfl)
      cases r2 with
      | some e => exact f2
      | none =>
        simp only
        have e3 := SetFilePointerEx_job env s.h_file 0
          ((st.emit (.SetFilePointerEx s.h_file st.file_info.size)).emit (.SetEndOfFile s.h_file))
        rcases h3 : SetFilePointerEx env s.h_file 0
          ((st.emit (.SetFilePointerEx s.h_file st.file_info.size)).emit
            (.SetEndOfFile s.h_file)) with ⟨r3, st3⟩
        rw [h3] at e3
        simp only at e3
        subst e3
        have f3 := f2.frame_trans (PolicyFrame.frame_emit _ (.SetFilePointerEx s.h_file 0) rfl)
        cases r3 with
        | some e => exact f3
        | none => exact f3

theorem destroy_frame (s : FileExtractStream) (st : Job) : PolicyFrame st (s.destroy st) := by
  unfold FileExtractStream.destroy
  cases s.h_file <;> cases s.error_state <;>
    simp [PolicyFrame, Job.emit, List.filter_append, Event.is_overwrite_dialog,
      INVALID_HANDLE_VALUE]

theorem GetStream_create_frame (env : Env) (fuel : Nat) (st : Job)
    (r : Nat × Option FileExtractStream × Job)
    (h : GetStream_create env fuel st = some r) :
    PolicyFrame st r.2.2 := by
  unfold GetStream_create FileExtractStream.new at h
  have h0 : PolicyFrame st
      { st with progress := st.progress.on_create_file st.file_path st.file_info.size } :=
    ⟨rfl, rfl⟩
  cases hl : FileExtractStream.open_loop env st.file_path fuel false
      { st with progress := st.progress.on_create_file st.file_path st.file_info.size } with
  | none => simp [hl] at h
  | some res =>
    have h1 := open_loop_frame env st.file_path fuel false _ res hl
    cases res with
    | fail e st2 =>
      simp only [hl, COM_ERROR_HANDLER_END] at h
      cases h
      exact h0.frame_trans ⟨h1.1, h1.2⟩
    | ok hs st2 =>
      obtain ⟨h_file, error_state⟩ := hs
      simp only [hl] at h
      have h2 := allocate_frame env { h_file := h_file, error_state := error_state } st2
      cases ha : FileExtractStream.allocate env
          { h_file := h_file, error_state := error_state } st2 with
      | ok u st3 =>
        rw [ha] at h h2
        cases h
        exact (h0.frame_trans h1).frame_trans h2
      | fail e st3 =>
        rw [ha] at h h2
        simp only [COM_ERROR_HANDLER_END] at h
        cases h
        have h3 := destroy_frame { h_file := h_file, error_state := error_state } st3
        exact ((h0.frame_trans h1).frame_trans h2).frame_trans ⟨h3.1, h3.2⟩

theorem GetStream_overwrite_frame (env : Env) (file_path : wstring) (st : Job)
    (h : st.oo ≠ .ooAsk ∨ env.FindFirstFileW st.trace file_path = false) :
    PolicyFrame st (GetStream_overwrite env file_path st).2 := by
  unfold GetStream_overwrite
  cases hf : env.FindFirstFileW st.trace file_path <;> cases hoo : st.oo <;>
    simp_all [PolicyFrame, Job.emit, List.filter_append, Event.is_overwrite_dialog]

theorem GetStream_body_frame (env : Env) (fuel : Nat) (st : Job)
    (r : Nat × Option FileExtractStream × Job)
    (h : st.oo ≠ .ooAsk ∨ env.FindFirstFileW st.trace st.file_path = false)
    (hr : GetStream_body env fuel st = some r) : PolicyFrame st r.2.2 := by
  have h1 := GetStream_overwrite_frame env st.file_path st h
  unfold GetStream_body at hr
  rcases hd : GetStream_overwrite env st.file_path st with ⟨d, st1⟩
  rw [hd] at hr h1
  cases d with
  | abort => cases hr; exact h1
  | skip => cases hr; exact h1
  | proceed => exact h1.frame_trans (GetStream_create_frame env fuel st1 r hr)

theorem GetStream_frame (env : Env) (file_list : FileList) (src_dir_index : Nat)
    (dst_dir : wstring) (fuel index mode : Nat) (st : Job)
    (r : Nat × Option FileExtractStream × Job) (h : st.oo ≠ .ooAsk)
    (hr : GetStream env file_list src_dir_index dst_dir fuel index mode st = some r) :
    PolicyFrame st r.2.2 := by
  unfold GetStream at hr
  by_cases hm : mode = kExtract
  · simp only [hm, ne_eq, not_true_eq_false, if_false] at hr
    cases hg : file_list[index]? with
    | none => simp [hg] at hr
    | some file_info =>
      simp only [hg] at hr
      cases hp : GetStream_path file_list src_dir_index fuel file_info.parent file_info.name with
      | none => simp [hp] at hr
      | some path =>
        simp only [hp] at hr
        have := GetStream_body_frame env fuel _ r (Or.inl (by simpa using h)) hr
        exact ⟨this.1, this.2⟩
  · simp only [hm, ne_eq, not_false_eq_true, if_true] at hr
    cases hr
    exact PolicyFrame.frame_refl st

theorem GetStream_seq_frame (env : Env) (file_list : FileList) (src_dir_index : Nat)
    (dst_dir : wstring) (fuel : Nat) :
    ∀ (calls : List (Nat × Nat)) (st : Job)
      (r : List (Nat × Option FileExtractStream) × Job), st.oo ≠ .ooAsk →
      GetStream_seq env file_list src_dir_index dst_dir fuel calls st = some r →
      PolicyFrame st r.2 := by
  intro calls
  induction calls with
  | nil =>
    intro st r _ hr
    simp [GetStream_seq] at hr
    subst hr
    exact PolicyFrame.frame_refl st
  | cons c cs ih =>
    intro st r h hr
    obtain ⟨index, mode⟩ := c
    unfold GetStream_seq at hr
    cases hg : GetStream env file_list src_dir_index dst_dir fuel index mode st with
    | none => simp [hg] at hr
    | some g =>
      obtain ⟨hres, out, st1⟩ := g
      simp only [hg] at hr
      have f1 := GetStream_frame env file_list src_dir_index dst_dir fuel index mode st _ h hg
      cases hs : GetStream_seq env file_list src_dir_index dst_dir fuel cs st1 with
      | none => simp [hs] at hr
      | some q =>
        obtain ⟨rs, st2⟩ := q
        simp only [hs] at hr
        cases hr
        have hne : st1.oo ≠ .ooAsk := by
          have := f1.1
          simp only at this
          rw [this]; exact h
        exact f1.frame_trans (ih st1 (rs, st2) hne hs)

/-- C4. The overwrite policy is a one-way state machine. In `GetStream` (entered at line
267 with the destination path in `file_path`), when the destination exists and the policy
is `ooAsk`: Yes goes on to overwrite (clears the attributes, creates the stream) and the
policy stays `ooAsk`; Yes-All does the same with the policy set to `ooOverwrite`; No
returns `S_OK` with a null stream and the policy left at `ooAsk`; No-All returns the same
with the policy set to `ooSkip`; Cancel returns `E_ABORT`. When the policy is not `ooAsk`
or the destination does not exist, the policy is unchanged and no overwrite prompt is
issued by the call; lines 267-303 then issue no prompt of any kind. Hence over any sequence of `GetStream` calls a policy that is not `ooAsk` never
changes: it never returns to `ooAsk` nor switches between `ooOverwrite` and `ooSkip`. -/
theorem overwrite_policy_one_way (env : Env) (file_list : FileList) (src_dir_index : Nat)
    (dst_dir : wstring) (fuel : Nat) (st : Job) :
    (env.FindFirstFileW st.trace st.file_path = true → st.oo = .ooAsk →
      match env.overwrite_dialog
          (st.trace ++ [.FindFirstFileW st.file_path, .FindClose]) st.file_path with
      | .oaYes =>
        GetStream_body env fuel st
          = GetStream_create env fuel
              { st with trace := st.trace ++ [.FindFirstFileW st.file_path, .FindClose,
                  .overwrite_dialog st.file_path,
                  .SetFileAttributesW st.file_path FILE_ATTRIBUTE_NORMAL] } ∧
        ∀ r, GetStream_body env fuel st = some r → r.2.2.oo = .ooAsk
      | .oaYesAll =>
        GetStream_body env fuel st
          = GetStream_create env fuel
              { st with oo := .ooOverwrite,
                        trace := st.trace ++ [.FindFirstFileW st.file_path, .FindClose,
                  .overwrite_dialog st.file_path,
                  .SetFileAttributesW st.file_path FILE_ATTRIBUTE_NORMAL] } ∧
        ∀ r, GetStream_body env fuel st = some r → r.2.2.oo = .ooOverwrite
      | .oaNo =>
        GetStream_body env fuel st = some (S_OK, none,
          { st with trace := st.trace ++ [.FindFirstFileW st.file_path, .FindClose,
              .overwrite_dialog st.file_path] })
      | .oaNoAll =>
        GetStream_body env fuel st = some (S_OK, none,
          { st with oo := .ooSkip,
                    trace := st.trace ++ [.FindFirstFileW st.file_path, .FindClose,
              .overwrite_dialog st.file_path] })
      | .oaCancel =>
        GetStream_body env fuel st = some (E_ABORT, none,
          { st with trace := st.trace ++ [.FindFirstFileW st.file_path, .FindClose,
              .overwrite_dialog st.file_path] })) ∧
    (∀ r, (st.oo ≠ .ooAsk ∨ env.FindFirstFileW st.trace st.file_path = false) →
      GetStream_body env fuel st = some r →
      r.2.2.oo = st.oo ∧
      r.2.2.trace.filter Event.is_overwrite_dialog
        = st.trace.filter Event.is_overwrite_dialog) ∧
    ((st.oo ≠ .ooAsk ∨ env.FindFirstFileW st.trace st.file_path = false) →
      (GetStream_overwrite env st.file_path st).2.oo = st.oo ∧
      ∃ evs, (GetStream_overwrite env st.file_path st).2.trace = st.trace ++ evs ∧
        ∀ ev ∈ evs, ev.is_prompt = false) ∧
    (∀ index mode r, st.oo ≠ .ooAsk →
      GetStream env file_list src_dir_index dst_dir fuel index mode st = some r →
      r.2.2.oo = st.oo ∧
      r.2.2.trace.filter Event.is_overwrite_dialog
        = st.trace.filter Event.is_overwrite_dialog) ∧
    (∀ calls r, st.oo ≠ .ooAsk →
      GetStream_seq env file_list src_dir_index dst_dir fuel calls st = some r →
      r.2.oo = st.oo) := by
  refine ⟨?_, ?_, ?_, ?_, ?_⟩
  · intro hex hask
    cases hresp : env.overwrite_dialog
        (st.trace ++ [.FindFirstFileW st.file_path, .FindClose]) st.file_path
    case oaYes =>
      have hb : GetStream_body env fuel st
          = GetStream_create env fuel
              { st with trace := st.trace ++ [.FindFirstFileW st.file_path, .FindClose,
                  .overwrite_dialog st.file_path,
                  .SetFileAttributesW st.file_path FILE_ATTRIBUTE_NORMAL] } := by
        simp [GetStream_body, GetStream_overwrite, hex, hask, hresp, Job.emit]
      refine ⟨hb, ?_⟩
      intro r hr
      rw [hb] at hr
      have := (GetStream_create_frame env fuel _ r hr).1
      simpa [hask] using this
    case oaYesAll =>
      have hb : GetStream_body env fuel st
          = GetStream_create env fuel
              { st with oo := .ooOverwrite,
                        trace := st.trace ++ [.FindFirstFileW st.file_path, .FindClose,
                  .overwrite_dialog st.file_path,
                  .SetFileAttributesW st.file_path FILE_ATTRIBUTE_NORMAL] } := by
        simp [GetStream_body, GetStream_overwrite, hex, hask, hresp, Job.emit]
      refine ⟨hb, ?_⟩
      intro r hr
      rw [hb] at hr
      have := (GetStream_create_frame env fuel _ r hr).1
      simpa using this
    all_goals simp [GetStream_body, GetStream_overwrite, hex, hask, hresp, Job.emit]
  · intro r h hr
    exact GetStream_body_frame env fuel st r h hr
  · intro h
    unfold GetStream_overwrite
    cases hf : env.FindFirstFileW st.trace st.file_path <;> cases hoo : st.oo <;>
      simp_all [Job.emit, Event.is_prompt]
  · intro index mode r h hr
    exact GetStream_frame env file_list src_dir_index dst_dir fuel index mode st r h hr
  · intro calls r h hr
    exact (GetStream_seq_frame env file_list src_dir_index dst_dir fuel calls st r h hr).1

/-- C4, exercised: the destination exists, the policy is `ooAsk` and the user answers
No-All: the file is skipped and the policy becomes `ooSkip`. -/
theorem overwrite_policy_one_way_witness :
    GetStream_body (env_exists .rdrIgnore .oaNoAll) 2 job0 = some (S_OK, none,
      { job0 with oo := .ooSkip,
                  trace := [.FindFirstFileW [], .FindClose, .overwrite_dialog []] }) :=
  (overwrite_policy_one_way (env_exists .rdrIgnore .oaNoAll) [] 0 [] 2 job0).1 rfl rfl

/-! ### Skipped files -/

theorem GetStream_skip (env : Env) (file_list : FileList) (src_dir_index : Nat)
    (dst_dir : wstring) (fuel : Nat) (st : Job) (index : Nat) (file_info : FileInfo)
    (path : wstring) (hget : file_list[index]? = some file_info)
    (hpath : GetStream_path file_list src_dir_index fuel file_info.parent file_info.name
      = some path)
    (hex : env.FindFirstFileW st.trace (dst_dir ++ ['\\'] ++ path) = true)
    (hoo : st.oo = .ooSkip) :
    GetStream env file_list src_dir_index dst_dir fuel index kExtract st
      = some (S_OK, none,
          { st with file_info := file_info, file_path := dst_dir ++ ['\\'] ++ path,
                    trace := st.trace ++ [.FindFirstFileW (dst_dir ++ ['\\'] ++ path),
                      .FindClose] }) := by
  simp only [List.append_assoc, List.singleton_append] at hex ⊢
  simp [GetStream, hget, hpath, GetStream_body, GetStream_overwrite, hex, hoo, Job.emit]

theorem GetStream_seq_skip (env : Env) (file_list : FileList) (src_dir_index : Nat)
    (dst_dir : wstring) (fuel : Nat) (hall : ∀ h p, env.FindFirstFileW h p = true) :
    ∀ (indices : List Nat) (st : Job), st.oo = .ooSkip →
      (∀ index ∈ indices, ∃ file_info path, file_list[index]? = some file_info ∧
        GetStream_path file_list src_dir_index fuel file_info.parent file_info.name
          = some path) →
      ∃ st1 evs,
        GetStream_seq env file_list src_dir_index dst_dir fuel
            (indices.map fun i => (i, kExtract)) st
          = some (indices.map fun _ => (S_OK, none), st1) ∧
        st1.trace = st.trace ++ evs ∧ (∀ ev ∈ evs, ev.is_lookup = true) ∧
        st1.oo = .ooSkip ∧ st1.error_log = st.error_log ∧
        st1.ignore_errors = st.ignore_errors := by
  intro indices
  induction indices with
  | nil =>
    intro st hoo _
    exact ⟨st, [], by simp [GetStream_seq], by simp, by simp, hoo, rfl, rfl⟩
  | cons i is ih =>
    intro st hoo hres
    obtain ⟨file_info, path, hget, hpath⟩ := hres i (List.mem_cons_self _ _)
    have h1 := GetStream_skip env file_list src_dir_index dst_dir fuel st i file_info path
      hget hpath (hall _ _) hoo
    obtain ⟨st2, evs, hs, htr, hev, hoo2, hlog, hflag⟩ :=
      ih { st with file_info := file_info, file_path := dst_dir ++ ['\\'] ++ path,
                   trace := st.trace ++ [.FindFirstFileW (dst_dir ++ ['\\'] ++ path),
                     .FindClose] }
        hoo (fun index hmem => hres index (List.mem_cons_of_mem _ hmem))
    refine ⟨st2, [.FindFirstFileW (dst_dir ++ ['\\'] ++ path), .FindClose] ++ evs,
      ?_, ?_, ?_, hoo2, hlog, hflag⟩
    · simp only [List.map_cons, GetStream_seq, h1, hs]
    · simpa using htr
    · intro ev hmem
      simp only [List.cons_append, List.nil_append, List.mem_cons] at hmem
      rcases hmem with rfl | rfl | hmem
      · rfl
      · rfl
      · exact hev ev hmem

/-- C5. With the policy `ooSkip`, for a file index whose resolved destination path
exists, `GetStream` returns `S_OK` with a null stream; the only calls it makes are the
lookup `FindFirstFileW`/`FindClose` (no prompt, no attribute change, no create, no
allocation). The same result, after the one overwrite prompt, is given under `ooAsk` when
the user answers No. Hence when every destination exists, a whole sequence of `GetStream`
calls in extract mode under `ooSkip` returns `S_OK` with a null stream for every index and
adds nothing but lookups to the trace, leaving policy, error log and flag unchanged. -/
theorem skip_leaves_destination (env : Env) (file_list : FileList) (src_dir_index : Nat)
    (dst_dir : wstring) (fuel : Nat) (st : Job) :
    (∀ index file_info path, file_list[index]? = some file_info →
      GetStream_path file_list src_dir_index fuel file_info.parent file_info.name
        = some path →
      env.FindFirstFileW st.trace (dst_dir ++ ['\\'] ++ path) = true →
      (st.oo = .ooSkip →
        GetStream env file_list src_dir_index dst_dir fuel index kExtract st
          = some (S_OK, none,
              { st with file_info := file_info, file_path := dst_dir ++ ['\\'] ++ path,
                        trace := st.trace ++ [.FindFirstFileW (dst_dir ++ ['\\'] ++ path),
                          .FindClose] })) ∧
      (st.oo = .ooAsk →
        env.overwrite_dialog
          (st.trace ++ [.FindFirstFileW (dst_dir ++ ['\\'] ++ path), .FindClose])
          (dst_dir ++ ['\\'] ++ path) = .oaNo →
        GetStream env file_list src_dir_index dst_dir fuel index kExtract st
          = some (S_OK, none,
              { st with file_info := file_info, file_path := dst_dir ++ ['\\'] ++ path,
                        trace := st.trace ++ [.FindFirstFileW (dst_dir ++ ['\\'] ++ path),
                          .FindClose, .overwrite_dialog (dst_dir ++ ['\\'] ++ path)] }))) ∧
    ((∀ h p, env.FindFirstFileW h p = true) → st.oo = .ooSkip →
      ∀ indices : List Nat,
        (∀ index ∈ indices, ∃ file_info path, file_list[index]? = some file_info ∧
          GetStream_path file_list src_dir_index fuel file_info.parent file_info.name
            = some path) →
        ∃ st1 evs,
          GetStream_seq env file_list src_dir_index dst_dir fuel
              (indices.map fun i => (i, kExtract)) st
            = some (indices.map fun _ => (S_OK, none), st1) ∧
          st1.trace = st.trace ++ evs ∧ (∀ ev ∈ evs, ev.is_lookup = true) ∧
          st1.oo = .ooSkip ∧ st1.error_log = st.error_log ∧
          st1.ignore_errors = st.ignore_errors) := by
  refine ⟨?_, ?_⟩
  · intro index file_info path hget hpath hex
    refine ⟨GetStream_skip env file_list src_dir_index dst_dir fuel st index file_info path
      hget hpath hex, ?_⟩
    intro hoo hresp
    simp only [List.append_assoc, List.singleton_append] at hex hresp ⊢
    simp [GetStream, hget, hpath, GetStream_body, GetStream_overwrite, hex, hoo, hresp,
      Job.emit]
  · intro hall hoo indices hres
    exact GetStream_seq_skip env file_list src_dir_index dst_dir fuel hall indices st hoo hres

/-- C5, exercised: both files of `archive1` already exist under `C:` and the policy is
`ooSkip`: both calls return `S_OK` with a null stream. -/
theorem skip_leaves_destination_witness :
    ∃ st1 evs,
      GetStream_seq (env_exists .rdrCancel .oaCancel) archive1.file_list 0xFFFFFFFF ['C', ':'] 3
          [(2, kExtract), (3, kExtract)] { job0 with oo := .ooSkip }
        = some ([(S_OK, none), (S_OK, none)], st1) ∧
      st1.trace = [] ++ evs ∧ (∀ ev ∈ evs, ev.is_lookup = true) ∧
      st1.oo = .ooSkip ∧ st1.error_log = [] ∧ st1.ignore_errors = false :=
  (skip_leaves_destination (env_exists .rdrCancel .oaCancel) archive1.file_list 0xFFFFFFFF
    ['C', ':'] 3 { job0 with oo := .ooSkip }).2 (fun _ _ => rfl) rfl [2, 3]
    (by
      intro index hmem
      simp only [List.mem_cons, List.mem_singleton, List.not_mem_nil, or_false] at hmem
      rcases hmem with rfl | rfl
      · exact ⟨_, _, rfl, rfl⟩
      · exact ⟨_, _, rfl, rfl⟩)

/-! ### The retry-or-ignore decision -/

/-- C6. `retry_or_ignore_error` returns `true` exactly when it appended the one entry
`(path, error)` to the error log, and otherwise leaves the log as it was. When the flag is
not set the dialog response decides: Ignore and Ignore-All append the entry and return
`true`, Retry returns `false` with the log unchanged, Cancel raises `E_ABORT` with log and
flag unchanged. The flag is changed only by Ignore-All, which sets it. -/
theorem retry_or_ignore_error_spec (env : Env) (path : wstring) (error : Error) (st : Job) :
    ((∃ st1, retry_or_ignore_error env path error st = .ok true st1) ↔
        (retry_or_ignore_error env path error st).job.error_log
          = st.error_log ++ [(path, error)]) ∧
    ((¬ ∃ st1, retry_or_ignore_error env path error st = .ok true st1) →
        (retry_or_ignore_error env path error st).job.error_log = st.error_log) ∧
    (st.ignore_errors = false →
      match env.error_retry_ignore_dialog st.trace path error true with
      | .rdrIgnore =>
        retry_or_ignore_error env path error st = .ok true
          { st with error_log := st.error_log ++ [(path, error)],
                    trace := st.trace ++ [.error_retry_ignore_dialog path error true] }
      | .rdrIgnoreAll =>
        retry_or_ignore_error env path error st = .ok true
          { st with error_log := st.error_log ++ [(path, error)], ignore_errors := true,
                    trace := st.trace ++ [.error_retry_ignore_dialog path error true] }
      | .rdrRetry =>
        retry_or_ignore_error env path error st = .ok false
          { st with trace := st.trace ++ [.error_retry_ignore_dialog path error true] }
      | .rdrCancel =>
        retry_or_ignore_error env path error st = .fail ⟨E_ABORT⟩
          { st with trace := st.trace ++ [.error_retry_ignore_dialog path error true] }) ∧
    ((retry_or_ignore_error env path error st).job.ignore_errors ≠ st.ignore_errors →
      st.ignore_errors = false ∧
      env.error_retry_ignore_dialog st.trace path error true = .rdrIgnoreAll ∧
      (retry_or_ignore_error env path error st).job.ignore_errors = true) := by
  cases hflag : st.ignore_errors <;>
    cases hresp : env.error_retry_ignore_dialog st.trace path error true <;>
    simp [retry_or_ignore_error, hflag, hresp, Res.job, Job.emit, ErrorLog.add]

/-- C6, exercised: with the flag unset and the response Ignore, the call returns `true`
and logs the entry. -/
theorem retry_or_ignore_error_spec_witness :
    job0.ignore_errors = false ∧
    retry_or_ignore_error (env_answers .rdrIgnore .oaYes) ['a'] ⟨5⟩ job0 = .ok true
      { job0 with error_log := job0.error_log ++ [(['a'], ⟨5⟩)],
                  trace := job0.trace ++ [.error_retry_ignore_dialog ['a'] ⟨5⟩ true] } :=
  ⟨rfl, (retry_or_ignore_error_spec (env_answers .rdrIgnore .oaYes) ['a'] ⟨5⟩ job0).2.2.1 rfl⟩

/-! ### Ignore-all monotonicity -/

theorem retry_or_ignore_error_flag_set (env : Env) (path : wstring) (error : Error) (st : Job)
    (h : st.ignore_errors = true) :
    retry_or_ignore_error env path error st
      = .ok true { st with error_log := st.error_log ++ [(path, error)] } := by
  simp [retry_or_ignore_error, h, ErrorLog.add]

theorem ignore_error_flag_set (env : Env) (path : wstring) (error : Error) (st : Job)
    (h : st.ignore_errors = true) :
    ignore_error env path error st
      = .ok () { st with error_log := st.error_log ++ [(path, error)] } := by
  simp [ignore_error, h, ErrorLog.add]

theorem run_seq_flag_set (env : Env) (calls : List PolicyCall) (st : Job)
    (h : st.ignore_errors = true) :
    PolicyCall.run_seq env calls st
      = .ok (calls.map fun _ => true)
          { st with error_log := st.error_log ++ calls.map PolicyCall.entry } := by
  induction calls generalizing st with
  | nil => simp [PolicyCall.run_seq]
  | cons c cs ih =>
    cases c with
    | retry_or_ignore path error =>
      simp only [PolicyCall.run_seq, PolicyCall.run,
        retry_or_ignore_error_flag_set env path error st h]
      rw [ih _ (by simpa using h)]
      simp [PolicyCall.entry]
    | ignore path error =>
      simp only [PolicyCall.run_seq, PolicyCall.run, ignore_error_flag_set env path error st h]
      rw [ih _ (by simpa using h)]
      simp [PolicyCall.entry]

/-- C7. Ignore-all monotonicity. Neither `retry_or_ignore_error` nor `ignore_error` clears a
set flag, and both only extend the log at its end. Once the flag is set, a call of either
function returns normally (`retry_or_ignore_error` with `true`) in a state that differs
from the old one only by the entry `(path, error)` appended to the log: no prompt is
recorded in the trace and the flag stays set. The same holds for any sequence of calls:
all of them return, every `retry_or_ignore_error` answers `true`, and the log grows by one
entry per call, in call order. -/
theorem ignore_all_monotone (env : Env) (path : wstring) (error : Error) (st : Job) :
    (st.ignore_errors = true →
      (retry_or_ignore_error env path error st).job.ignore_errors = true ∧
      (ignore_error env path error st).job.ignore_errors = true) ∧
    (st.error_log <+: (retry_or_ignore_error env path error st).job.error_log ∧
      st.error_log <+: (ignore_error env path error st).job.error_log) ∧
    (st.ignore_errors = true →
      retry_or_ignore_error env path error st
        = .ok true { st with error_log := st.error_log ++ [(path, error)] } ∧
      ignore_error env path error st
        = .ok () { st with error_log := st.error_log ++ [(path, error)] }) ∧
    (st.ignore_errors = true → ∀ calls : List PolicyCall,
      PolicyCall.run_seq env calls st
        = .ok (calls.map fun _ => true)
            { st with error_log := st.error_log ++ calls.map PolicyCall.entry }) := by
  refine ⟨?_, ⟨?_, ?_⟩, ?_, ?_⟩
  · intro h
    simp [retry_or_ignore_error_flag_set env path error st h,
      ignore_error_flag_set env path error st h, Res.job, h]
  · cases hflag : st.ignore_errors <;>
      cases hresp : env.error_retry_ignore_dialog st.trace path error true <;>
      simp [retry_or_ignore_error, hflag, hresp, Res.job, Job.emit, ErrorLog.add]
  · cases hflag : st.ignore_errors <;>
      cases hresp : env.error_retry_ignore_dialog st.trace path error false <;>
      simp [ignore_error, hflag, hresp, Res.job, Job.emit, ErrorLog.add]
  · intro h
    exact ⟨retry_or_ignore_error_flag_set env path error st h,
      ignore_error_flag_set env path error st h⟩
  · intro h calls
    exact run_seq_flag_set env calls st h

/-- C7, exercised: with the flag set, three calls made under a user who would answer
Cancel all return and log three entries, without any prompt. -/
theorem ignore_all_monotone_witness :
    PolicyCall.run_seq (env_answers .rdrCancel .oaCancel)
        [.ignore ['a'] ⟨1⟩, .retry_or_ignore ['b'] ⟨2⟩, .ignore ['c'] ⟨3⟩]
        { job0 with ignore_errors := true }
      = .ok [true, true, true]
          { job0 with ignore_errors := true,
                      error_log := [(['a'], ⟨1⟩), (['b'], ⟨2⟩), (['c'], ⟨3⟩)] } :=
  (ignore_all_monotone (env_answers .rdrCancel .oaCancel) [] ⟨0⟩
    { job0 with ignore_errors := true }).2.2.2 rfl
      [.ignore ['a'] ⟨1⟩, .retry_or_ignore ['b'] ⟨2⟩, .ignore ['c'] ⟨3⟩]

/-! ### Write failures -/

/-- What a failing `WriteFile` does on a stream that is not yet failed, in whatever state
the extractor is: `Write` puts the stream into the failed state and reports the whole
requested size as processed. Unless the user answers Cancel to the prompt (shown only while
the ignore-errors flag is unset), `Write` returns `S_OK` and the error log grows by exactly
one entry, for the path that the extractor member `file_path` holds when `Write` is called;
on Cancel it returns `E_ABORT` and logs nothing. Closing the stream afterwards ends with a
`DeleteFileW` of the path that the member holds when the stream is closed. -/
theorem Write_failure_member_path (env : Env) (s : FileExtractStream) (data : List Nat)
    (size : Nat) (st : Job) (last_error : Nat) (hs : s.error_state = false)
    (hw : (WriteFile env s.h_file data size st).1 = .error last_error) :
    (s.Write env data size st).stream.error_state = true ∧
    (s.Write env data size st).stream.h_file = s.h_file ∧
    (s.Write env data size st).processedSize = size ∧
    ((st.ignore_errors = true ∨
        env.error_retry_ignore_dialog (st.trace ++ [.WriteFile s.h_file data size]) st.file_path
          (CHECK_SYS_error last_error) false ≠ .rdrCancel) →
      (s.Write env data size st).hresult = S_OK ∧
      (s.Write env data size st).job.error_log
        = st.error_log ++ [(st.file_path, CHECK_SYS_error last_error)]) ∧
    ((st.ignore_errors = false ∧
        env.error_retry_ignore_dialog (st.trace ++ [.WriteFile s.h_file data size]) st.file_path
          (CHECK_SYS_error last_error) false = .rdrCancel) →
      (s.Write env data size st).hresult = E_ABORT ∧
      (s.Write env data size st).job.error_log = st.error_log) ∧
    (s.Write env data size st).job.file_path = st.file_path ∧
    (∀ st2 : Job, ((s.Write env data size st).stream.destroy st2).trace
      = st2.trace ++ [.SetEndOfFile s.h_file]
          ++ (if s.h_file ≠ INVALID_HANDLE_VALUE then [.CloseHandle s.h_file] else [])
          ++ [.DeleteFileW st2.file_path]) := by
  have hw1 : (WriteFile env s.h_file data size st).2 = st.emit (.WriteFile s.h_file data size) := by
    unfold WriteFile; cases s.h_file <;> rfl
  rcases hpair : WriteFile env s.h_file data size st with ⟨w1, w2⟩
  rw [hpair] at hw hw1
  simp only at hw hw1
  subst hw hw1
  cases hflag : st.ignore_errors <;>
    cases hresp : env.error_retry_ignore_dialog (st.trace ++ [.WriteFile s.h_file data size])
      st.file_path (CHECK_SYS_error last_error) false <;>
    cases hh : s.h_file <;>
    simp_all [FileExtractStream.Write, ignore_error, Job.emit, ErrorLog.add,
      COM_ERROR_HANDLER_END, FileExtractStream.destroy, INVALID_HANDLE_VALUE, S_OK]

/-- C9. `Write` on a stream already in the failed state is a no-op: it returns `S_OK`,
reports the whole requested size as processed, and leaves the stream (still failed) and
the whole job state, trace and error log included, as they were. -/
theorem Write_failed_noop (env : Env) (s : FileExtractStream) (data : List Nat) (size : Nat)
    (st : Job) (h : s.error_state = true) :
    s.Write env data size st
        = { hresult := S_OK, processedSize := size, stream := s, job := st } ∧
    (s.Write env data size st).stream.error_state = true ∧
    (s.Write env data size st).job.trace = st.trace ∧
    (s.Write env data size st).job.error_log = st.error_log := by
  simp [FileExtractStream.Write, h]

/-- C9, exercised on a failed stream without a handle. -/
theorem Write_failed_noop_witness :
    (FileExtractStream.mk none true).Write
        (env_answers .rdrCancel .oaCancel) [1, 2, 3] 3 job0
      = { hresult := S_OK, processedSize := 3,
          stream := FileExtractStream.mk none true, job := job0 } :=
  (Write_failed_noop (env_answers .rdrCancel .oaCancel)
    (FileExtractStream.mk none true) [1, 2, 3] 3 job0 rfl).1

/-! ### Ignored open failures -/

/-- C10 fails on the code. Extracting `a` (declared size 10) of `archive1` from inside
`dir` (index 1) into `C:`: `CreateFileW` fails with access denied and the user answers
Ignore, so the failure is logged and the stream is left without a handle; `allocate` then
calls `SetFilePointerEx` on `INVALID_HANDLE_VALUE`, its `CHECK_SYS` throws, and `GetStream`
returns the failure code 0x80070006 with no stream instead of `S_OK`. The same happens
without any prompt when the ignore-errors flag is set. -/
theorem GetStream_ignored_open_failure_fails :
    ((GetStream (env_create_fails .rdrIgnore) archive1.file_list 1 ['C', ':'] 2 2 kExtract
        job0).map (fun r => (r.1, r.2.1, r.2.2.error_log, r.2.2.error))
      = some (0x80070006, none, [(['C', ':', '\\', 'a'], ⟨0x80070005⟩)],
          some ⟨0x80070006⟩)) ∧
    (0x80070006 ≠ S_OK) ∧
    ((GetStream (env_create_fails .rdrCancel) archive1.file_list 1 ['C', ':'] 2 2 kExtract
        { job0 with ignore_errors := true }).map
          (fun r => (r.1, r.2.1, r.2.2.error_log, r.2.2.error))
      = some (0x80070006, none, [(['C', ':', '\\', 'a'], ⟨0x80070005⟩)],
          some ⟨0x80070006⟩)) := by
  refine ⟨?_, by decide, ?_⟩ <;> rfl

/-! ### Order of the restoration -/

/-- C12, as amended. Every successful pass of the restoration of an entry performs its
filesystem operations on the path in this order: clear the attributes to
`FILE_ATTRIBUTE_NORMAL`, open the path, reapply the attribute bitmask of the entry, then,
as the last operation before the handle is closed, set the three timestamps through the
handle opened while the attributes were cleared. -/
theorem set_attr_attempt_order (env : Env) (file_path : wstring) (file_info : FileInfo)
    (st st1 : Job) (h : set_attr_attempt env file_path file_info st = .ok () st1) :
    ∃ handle : Nat,
      st1 = { st with trace := st.trace ++
        [.SetFileAttributesW file_path FILE_ATTRIBUTE_NORMAL,
         .File_open file_path,
         .SetFileAttributesW file_path file_info.attr,
         .SetFileTime (some handle) file_info.ctime file_info.atime file_info.mtime,
         .CloseHandle (some handle)] } ∧
      ∀ fuel, set_attr_restore env file_path file_info (fuel + 1) st = some (.ok () st1) := by
  unfold set_attr_attempt at h
  cases h1 : env.SetFileAttributesW st.trace file_path FILE_ATTRIBUTE_NORMAL with
  | some e => simp [h1] at h
  | none =>
    simp only [h1] at h
    cases h2 : env.File_open (st.emit (.SetFileAttributesW file_path
        FILE_ATTRIBUTE_NORMAL)).trace file_path with
    | error e => simp [h2] at h
    | ok handle =>
      simp only [h2] at h
      cases h3 : env.SetFileAttributesW ((st.emit (.SetFileAttributesW file_path
          FILE_ATTRIBUTE_NORMAL)).emit (.File_open file_path)).trace file_path
          file_info.attr with
      | some e => simp [h3] at h
      | none =>
        simp only [h3] at h
        cases h4 : env.SetFileTime (((st.emit (.SetFileAttributesW file_path
            FILE_ATTRIBUTE_NORMAL)).emit (.File_open file_path)).emit
            (.SetFileAttributesW file_path file_info.attr)).trace handle file_info.ctime
            file_info.atime file_info.mtime with
        | some e => simp [h4] at h
        | none =>
          simp only [h4, Res.ok.injEq, true_and] at h
          refine ⟨handle, ?_, ?_⟩
          · rw [← h]
            simp [Job.emit]
          · intro fuel
            simp [set_attr_restore, set_attr_attempt, h1, h2, h3, h4, h]

/-- C12, exercised on the read-only file `a` of `archive2`. -/
theorem set_attr_attempt_order_witness :
    ∃ handle : Nat,
      { job0 with trace :=
          [.SetFileAttributesW ['C', ':', '\\', 'a'] FILE_ATTRIBUTE_NORMAL,
           .File_open ['C', ':', '\\', 'a'],
           .SetFileAttributesW ['C', ':', '\\', 'a'] 0x21,
           .SetFileTime (some 2) 7 8 9,
           .CloseHandle (some 2)] }
        = { job0 with trace := job0.trace ++
          [.SetFileAttributesW ['C', ':', '\\', 'a'] FILE_ATTRIBUTE_NORMAL,
           .File_open ['C', ':', '\\', 'a'],
           .SetFileAttributesW ['C', ':', '\\', 'a']
             (FileInfo.mk ['a'] 0x21 7 8 9 10 1 false).attr,
           .SetFileTime (some handle) (FileInfo.mk ['a'] 0x21 7 8 9 10 1 false).ctime
             (FileInfo.mk ['a'] 0x21 7 8 9 10 1 false).atime
             (FileInfo.mk ['a'] 0x21 7 8 9 10 1 false).mtime,
           .CloseHandle (some handle)] } ∧
      ∀ fuel, set_attr_restore (env_answers .rdrRetry .oaYes) ['C', ':', '\\', 'a']
          (FileInfo.mk ['a'] 0x21 7 8 9 10 1 false) (fuel + 1) job0
        = some (.ok ()
            { job0 with trace :=
              [.SetFileAttributesW ['C', ':', '\\', 'a'] FILE_ATTRIBUTE_NORMAL,
               .File_open ['C', ':', '\\', 'a'],
               .SetFileAttributesW ['C', ':', '\\', 'a'] 0x21,
               .SetFileTime (some 2) 7 8 9,
               .CloseHandle (some 2)] }) :=
  set_attr_attempt_order (env_answers .rdrRetry .oaYes) ['C', ':', '\\', 'a']
    (FileInfo.mk ['a'] 0x21 7 8 9 10 1 false) job0 _ rfl

/-- C12 as stated fails. Restoring the selected file `a` (index 2 of `archive2`, read-only,
times 7, 8, 9) into `C:` with every call succeeding: the attribute bitmask 0x21 is
reapplied third and `SetFileTime` comes after it, so reapplying the attributes is not the
last operation and the timestamps are not set before it. -/
theorem set_attr_order_counterexample :
    set_attr (env_answers .rdrRetry .oaYes) archive2 2 2 ['C', ':'] job0
      = some (.ok ()
          { job0 with trace :=
            [.SetFileAttributesW ['C', ':', '\\', 'a'] FILE_ATTRIBUTE_NORMAL,
             .File_open ['C', ':', '\\', 'a'],
             .SetFileAttributesW ['C', ':', '\\', 'a'] 0x21,
             .SetFileTime (some 2) 7 8 9,
             .CloseHandle (some 2)] }) ∧
    List.indexOf (Event.SetFileAttributesW ['C', ':', '\\', 'a'] 0x21)
        [Event.SetFileAttributesW ['C', ':', '\\', 'a'] FILE_ATTRIBUTE_NORMAL,
         .File_open ['C', ':', '\\', 'a'],
         .SetFileAttributesW ['C', ':', '\\', 'a'] 0x21,
         .SetFileTime (some 2) 7 8 9,
         .CloseHandle (some 2)] = 2 ∧
    List.indexOf (Event.SetFileTime (some 2) 7 8 9)
        [Event.SetFileAttributesW ['C', ':', '\\', 'a'] FILE_ATTRIBUTE_NORMAL,
         .File_open ['C', ':', '\\', 'a'],
         .SetFileAttributesW ['C', ':', '\\', 'a'] 0x21,
         .SetFileTime (some 2) 7 8 9,
         .CloseHandle (some 2)] = 3 := by
  refine ⟨rfl, by decide, by decide⟩

/-! ### A failing engine -/

/-- C13. If the bulk `Extract` of the codec engine returns a failure result,
`Archive::extract` raises: the raised value is the error stored by the callbacks when one
was stored and otherwise an `Error` carrying the result code of the engine; the job state
is the one in which the engine left it, so no attribute restoration takes place (`set_attr`
is not called and nothing is added to the trace). -/
theorem extract_engine_failure (env : Env) (engine : List Nat → Job → Nat × Job)
    (ar : Archive) (fuel : Nat) (src_indices : List Nat) (dst_dir : wstring) (st : Job)
    (indices : List Nat) (st1 : Job)
    (hprep : extract_indices env ar fuel src_indices dst_dir st = some (.ok indices st1))
    (hfail : FAILED (engine indices { st1 with error := none }).1 = true) :
    extract env engine ar fuel src_indices dst_dir st
      = some (.fail
          (match (engine indices { st1 with error := none }).2.error with
            | some error => error
            | none => ⟨(engine indices { st1 with error := none }).1⟩)
          (engine indices { st1 with error := none }).2) := by
  unfold extract
  rw [hprep]
  simp only
  generalize engine indices { st1 with error := none } = r at hfail ⊢
  obtain ⟨res, st2⟩ := r
  simp only at hfail
  simp only [hfail, if_true]
  cases st2.error <;> rfl

/-- C13, exercised: the engine returns `E_ABORT` without a stored error (the user
cancelled an overwrite prompt); `extract` raises `E_ABORT` and restores nothing. -/
theorem extract_engine_failure_witness :
    extract (env_answers .rdrRetry .oaYes) (engine_returns E_ABORT) archive2 3 [0] ['C', ':']
        job0
      = some (.fail ⟨E_ABORT⟩
          { job0 with trace := [.enter 0, .CreateDirectoryW ['C', ':', '\\', 't', 'o', 'p'],
              .enter 3, .enter 1,
              .CreateDirectoryW ['C', ':', '\\', 't', 'o', 'p', '\\', 'd', 'i', 'r'],
              .enter 2] }) :=
  extract_engine_failure (env_answers .rdrRetry .oaYes) (engine_returns E_ABORT) archive2 3
    [0] ['C', ':'] job0 [2, 3] _ rfl rfl

/-! ### Per-file result codes -/

/-- C14. `SetOperationResult` returns `S_OK` and leaves the job untouched (no prompt, log
and flag unchanged) for every code other than unsupported-method, data-error and CRC-error.
For these three the failure `e` is handled as `ignore_error` handles it, for the path of
the current file: with the flag set there is no prompt and exactly the entry
`(file_path, e)` is appended; with the flag unset the no-retry dialog is shown once, and
then Cancel returns `E_ABORT` with log and flag unchanged, Ignore-All appends the entry and
sets the flag, and any other answer appends the entry and leaves the flag unset. -/
theorem SetOperationResult_spec (env : Env) (fail_msg : Nat → Error) (code : Nat) (st : Job) :
    ((code ≠ kUnSupportedMethod ∧ code ≠ kDataError ∧ code ≠ kCRCError) →
      SetOperationResult env fail_msg code st = (S_OK, st)) ∧
    (∀ e : Error,
      (code = kUnSupportedMethod ∧ e = fail_msg MSG_ERROR_EXTRACT_UNSUPPORTED_METHOD ∨
        code = kDataError ∧ e = fail_msg MSG_ERROR_EXTRACT_DATA_ERROR ∨
        code = kCRCError ∧ e = fail_msg MSG_ERROR_EXTRACT_CRC_ERROR) →
      (SetOperationResult env fail_msg code st).2
          = (match ignore_error env st.file_path e st with
              | .ok () st1 => st1
              | .fail e2 st1 => { st1 with error := some e2 }) ∧
      (st.ignore_errors = true →
        (SetOperationResult env fail_msg code st).2
          = { st with error_log := st.error_log ++ [(st.file_path, e)] }) ∧
      (st.ignore_errors = false →
        match env.error_retry_ignore_dialog st.trace st.file_path e false with
        | .rdrCancel =>
          SetOperationResult env fail_msg code st
            = (E_ABORT, { st with
                error := some ⟨E_ABORT⟩,
                trace := st.trace ++ [.error_retry_ignore_dialog st.file_path e false] })
        | .rdrIgnoreAll =>
          (SetOperationResult env fail_msg code st).2
            = { st with
                ignore_errors := true,
                error_log := st.error_log ++ [(st.file_path, e)],
                trace := st.trace ++ [.error_retry_ignore_dialog st.file_path e false] }
        | _ =>
          (SetOperationResult env fail_msg code st).2
            = { st with
                error_log := st.error_log ++ [(st.file_path, e)],
                trace := st.trace ++ [.error_retry_ignore_dialog st.file_path e false] })) := by
  refine ⟨?_, ?_⟩
  · rintro ⟨h1, h2, h3⟩
    simp [SetOperationResult, h1, h2, h3]
  · intro e he
    have hthrown : SetOperationResult env fail_msg code st
        = (match ignore_error env st.file_path e st with
            | .ok () st1 =>
              (match st1.error with
                | some stored => stored.code
                | none => S_OK, st1)
            | .fail e2 st1 => COM_ERROR_HANDLER_END e2 st1) := by
      rcases he with ⟨hc, rfl⟩ | ⟨hc, rfl⟩ | ⟨hc, rfl⟩ <;> subst hc <;>
        simp [SetOperationResult, kUnSupportedMethod, kDataError, kCRCError]
    rw [hthrown]
    cases hflag : st.ignore_errors <;>
      cases hresp : env.error_retry_ignore_dialog st.trace st.file_path e false <;>
      simp [ignore_error, hflag, hresp, Job.emit, ErrorLog.add, COM_ERROR_HANDLER_END]

/-- C14, exercised: a CRC error on the current file `f`, answered Ignore-All, is logged
and sets the flag; the success code 0 changes nothing. -/
theorem SetOperationResult_spec_witness :
    SetOperationResult (env_answers .rdrIgnoreAll .oaYes) fail_msg0 0
        { job0 with file_path := ['f'] }
      = (S_OK, { job0 with file_path := ['f'] }) ∧
    (SetOperationResult (env_answers .rdrIgnoreAll .oaYes) fail_msg0 kCRCError
        { job0 with file_path := ['f'] }).2
      = { job0 with
          file_path := ['f'],
          ignore_errors := true,
          error_log := [(['f'], ⟨0x80040202⟩)],
          trace := [.error_retry_ignore_dialog ['f'] ⟨0x80040202⟩ false] } :=
  ⟨(SetOperationResult_spec (env_answers .rdrIgnoreAll .oaYes) fail_msg0 0
      { job0 with file_path := ['f'] }).1 (by decide),
   ((SetOperationResult_spec (env_answers .rdrIgnoreAll .oaYes) fail_msg0 kCRCError
      { job0 with file_path := ['f'] }).2 ⟨0x80040202⟩ (Or.inr (Or.inr ⟨rfl, rfl⟩))).2.2 rfl⟩

/-! ### A retried open -/

/-- C17 fails on the code. Creating `C:\a` fails once, the user answers Retry and the
second `CreateFileW` succeeds with handle 1: the constructor returns a stream that holds
the valid handle and is nevertheless in the failed state (line 162 sets `error_state` and
nothing resets it). A following `Write` of 3 bytes calls no `WriteFile` and reports 3 bytes
processed, and closing the stream deletes the file. -/
theorem FileExtractStream_retry_leaves_failed :
    FileExtractStream.new env_open_retry 2 job_a
      = some (.ok stream_retried
          { job_a with
            progress := ⟨0, 0, ['C', ':', '\\', 'a'], 0, 10⟩
            trace := [.CreateFileW ['C', ':', '\\', 'a'],
              .error_retry_ignore_dialog ['C', ':', '\\', 'a'] ⟨0x80070005⟩ true,
              .CreateFileW ['C', ':', '\\', 'a']] }) ∧
    stream_retried.h_file = some 1 ∧ stream_retried.error_state = true ∧
    stream_retried.Write env_open_retry [1, 2, 3] 3 job_a
      = { hresult := S_OK, processedSize := 3, stream := stream_retried, job := job_a } ∧
    (stream_retried.destroy job_a).trace
      = [.SetEndOfFile (some 1), .CloseHandle (some 1),
          .DeleteFileW ['C', ':', '\\', 'a']] := by
  refine ⟨?_, rfl, rfl, rfl, rfl⟩
  rfl

/-! ### Attribute restoration -/

/-- C11 fails on the code. `top` of `archive2` is extracted into `C:`; every call succeeds
and the engine extracts the two files through the callbacks and reports success.
`extract` returns; its calls are the preparation walk, the creation and writing of
`C:\top\dir\a` and `C:\top\b`, and the restoration phase, which restores the directories
`C:\top\dir` and `C:\top` only. The files `a` (index 2) and `b` (index 3) lie inside the
selected directory and were extracted, yet no call names their paths after their handles
are closed, and their attributes and timestamps (0x21 with 7, 8, 9 and 0x20 with 10, 11,
12) are never applied: the loop of `set_attr` over the children calls `set_attr` for
sub-directories only (line 448). The same `set_attr` does restore a file it is called on:
when `a` itself is the selected entry (extracted from `dir` into `C:`), the phase applies
0x21 and 7, 8, 9 to `C:\a`. -/
theorem extract_skips_nested_files :
    (extract (env_answers .rdrRetry .oaYes)
        (engine_extracts (env_answers .rdrRetry .oaYes) archive2.file_list 0xFFFFFFFF
          ['C', ':'])
        archive2 6 [0] ['C', ':'] job0).map
          (fun r => match r with
            | .ok () st => some (st.trace, st.error_log)
            | .fail _ _ => none)
      = some (some (
          [.enter 0, .CreateDirectoryW ['C', ':', '\\', 't', 'o', 'p'],
           .enter 3, .enter 1,
           .CreateDirectoryW ['C', ':', '\\', 't', 'o', 'p', '\\', 'd', 'i', 'r'],
           .enter 2,
           .FindFirstFileW ['C', ':', '\\', 't', 'o', 'p', '\\', 'd', 'i', 'r', '\\', 'a'],
           .CreateFileW ['C', ':', '\\', 't', 'o', 'p', '\\', 'd', 'i', 'r', '\\', 'a'],
           .SetFilePointerEx (some 1) 10, .SetEndOfFile (some 1),
           .SetFilePointerEx (some 1) 0,
           .WriteFile (some 1) [0, 0, 0, 0, 0, 0, 0, 0, 0, 0] 10,
           .SetEndOfFile (some 1), .CloseHandle (some 1),
           .FindFirstFileW ['C', ':', '\\', 't', 'o', 'p', '\\', 'b'],
           .CreateFileW ['C', ':', '\\', 't', 'o', 'p', '\\', 'b'],
           .WriteFile (some 1) [] 0,
           .SetEndOfFile (some 1), .CloseHandle (some 1),
           .SetFileAttributesW ['C', ':', '\\', 't', 'o', 'p', '\\', 'd', 'i', 'r']
             FILE_ATTRIBUTE_NORMAL,
           .File_open ['C', ':', '\\', 't', 'o', 'p', '\\', 'd', 'i', 'r'],
           .SetFileAttributesW ['C', ':', '\\', 't', 'o', 'p', '\\', 'd', 'i', 'r'] 0x11,
           .SetFileTime (some 2) 4 5 6,
           .CloseHandle (some 2),
           .SetFileAttributesW ['C', ':', '\\', 't', 'o', 'p'] FILE_ATTRIBUTE_NORMAL,
           .File_open ['C', ':', '\\', 't', 'o', 'p'],
           .SetFileAttributesW ['C', ':', '\\', 't', 'o', 'p'] 0x10,
           .SetFileTime (some 2) 1 2 3,
           .CloseHandle (some 2)], [])) ∧
    InSubtree archive2.file_list 0 2 ∧ is_file archive2.file_list 2 ∧
    InSubtree archive2.file_list 0 3 ∧ is_file archive2.file_list 3 ∧
    (extract (env_answers .rdrRetry .oaYes)
        (engine_extracts (env_answers .rdrRetry .oaYes) archive2.file_list 1 ['C', ':'])
        archive2 6 [2] ['C', ':'] job0).map
          (fun r => match r with
            | .ok () st => some (st.trace, st.error_log)
            | .fail _ _ => none)
      = some (some (
          [.enter 2,
           .FindFirstFileW ['C', ':', '\\', 'a'],
           .CreateFileW ['C', ':', '\\', 'a'],
           .SetFilePointerEx (some 1) 10, .SetEndOfFile (some 1),
           .SetFilePointerEx (some 1) 0,
           .WriteFile (some 1) [0, 0, 0, 0, 0, 0, 0, 0, 0, 0] 10,
           .SetEndOfFile (some 1), .CloseHandle (some 1),
           .SetFileAttributesW ['C', ':', '\\', 'a'] FILE_ATTRIBUTE_NORMAL,
           .File_open ['C', ':', '\\', 'a'],
           .SetFileAttributesW ['C', ':', '\\', 'a'] 0x21,
           .SetFileTime (some 2) 7 8 9,
           .CloseHandle (some 2)], [])) := by
  refine ⟨rfl, ?_, ⟨_, rfl, rfl⟩, ?_, ⟨_, rfl, rfl⟩, rfl⟩
  · exact @InSubtree.child _ _ 2 ⟨['a'], 0x21, 7, 8, 9, 10, 1, false⟩ rfl
      (@InSubtree.child _ _ 1 ⟨['d', 'i', 'r'], 0x11, 4, 5, 6, 0, 0, true⟩ rfl
        (.root (by decide)))
  · exact @InSubtree.child _ _ 3 ⟨['b'], 0x20, 10, 11, 12, 0, 0, false⟩ rfl
      (.root (by decide))

/-! ### Paths of the two passes -/

/-- C18 fails on the code. Extracting `top` of `archive1` (a root, its parent is the
extraction root 0xFFFFFFFF) into the drive root `C:\`: `prepare_extract` creates
`C:\top` for the parent of `b` and collects `b` (index 3), so the claimed path is
`add_trailing_slash (C:\top) + b = C:\top\b`; `GetStream` resolves `C:\\top\b` (line 265
inserts a backslash behind a destination that already ends with one) and creates the
file under that path. -/
theorem GetStream_path_disagrees :
    extract_prepare (env_answers .rdrRetry .oaYes) archive1 3 [0] ['C', ':', '\\'] job0
      = some (.ok [3, 2]
          { job0 with trace :=
            [.enter 0, .CreateDirectoryW ['C', ':', '\\', 't', 'o', 'p'],
             .enter 3, .enter 1,
             .CreateDirectoryW ['C', ':', '\\', 't', 'o', 'p', '\\', 'd', 'i', 'r'],
             .enter 2] }) ∧
    add_trailing_slash ['C', ':', '\\', 't', 'o', 'p'] ++ ['b']
      = ['C', ':', '\\', 't', 'o', 'p', '\\', 'b'] ∧
    (GetStream (env_answers .rdrRetry .oaYes) archive1.file_list 0xFFFFFFFF ['C', ':', '\\'] 3
        3 kExtract job0).map (fun r => (r.1, r.2.2.file_path, r.2.2.trace))
      = some (S_OK, ['C', ':', '\\', '\\', 't', 'o', 'p', '\\', 'b'],
          [.FindFirstFileW ['C', ':', '\\', '\\', 't', 'o', 'p', '\\', 'b'],
           .CreateFileW ['C', ':', '\\', '\\', 't', 'o', 'p', '\\', 'b']]) ∧
    ['C', ':', '\\', '\\', 't', 'o', 'p', '\\', 'b']
      ≠ add_trailing_slash ['C', ':', '\\', 't', 'o', 'p'] ++ ['b'] := by
  refine ⟨rfl, rfl, rfl, by decide⟩

/-! ### Detection never prompts and keeps its two vectors aligned -/

theorem open_archive_menus (codec : Codec) (format : ArcFormat) (in_stream : IInStream)
    (st : Opener) :
    (open_archive codec format in_stream st).opener.trace.filter OpenEvent.is_menu
      = st.trace.filter OpenEvent.is_menu := by
  unfold open_archive
  simp only [Opener.emit]
  repeat' split
  all_goals simp_all [ORes.opener, List.filter_append, OpenEvent.is_menu]

theorem open_sub_stream_menus (codec : Codec) (in_arc : IInArchive) (st : Opener) :
    (open_sub_stream codec in_arc st).2.trace.filter OpenEvent.is_menu
      = st.trace.filter OpenEvent.is_menu := by
  unfold open_sub_stream
  simp only []
  repeat' split
  all_goals simp [Opener.emit, List.filter_append, OpenEvent.is_menu]

theorem detect_step_ok (codec : Codec) (M : List OpenEvent)
    (detect_sub : IInStream → List IInArchive → List (List ArcFormat) → Opener →
      Option (ORes Detected))
    (hsub : ∀ s a f st, a.length = f.length → st.trace.filter OpenEvent.is_menu = M →
      DetectOK M (detect_sub s a f st))
    (in_stream : IInStream) (parent_format : List ArcFormat) (acc : Option (ORes Detected))
    (arc_format : ArcFormat) (hacc : DetectOK M acc) :
    DetectOK M (detect_step codec detect_sub in_stream parent_format acc arc_format) := by
  unfold detect_step
  match acc, hacc with
  | none, _ => trivial
  | some (.fail e st), h => exact h
  | some (.ok (archives, formats) st), ⟨hlen, hm⟩ =>
    simp only []
    have h1 := open_archive_menus codec arc_format in_stream st
    cases ho : open_archive codec arc_format in_stream st with
    | fail e st1 =>
      rw [ho] at h1
      exact h1.trans hm
    | ok r st1 =>
      rw [ho] at h1
      obtain ⟨b, archive⟩ := r
      cases b with
      | false => exact ⟨hlen, h1.trans hm⟩
      | true =>
        simp only []
        have h2 := open_sub_stream_menus codec archive st1
        rcases hs : open_sub_stream codec archive st1 with ⟨sub, st2⟩
        rw [hs] at h2
        cases sub with
        | none => exact ⟨by simp [hlen], h2.trans (h1.trans hm)⟩
        | some sub_stream => exact hsub _ _ _ _ (by simp [hlen]) (h2.trans (h1.trans hm))

theorem detect_fold_ok (codec : Codec) (M : List OpenEvent)
    (detect_sub : IInStream → List IInArchive → List (List ArcFormat) → Opener →
      Option (ORes Detected))
    (hsub : ∀ s a f st, a.length = f.length → st.trace.filter OpenEvent.is_menu = M →
      DetectOK M (detect_sub s a f st))
    (in_stream : IInStream) (parent_format : List ArcFormat) :
    ∀ (gs : List ArcFormat) (acc : Option (ORes Detected)), DetectOK M acc →
      DetectOK M (gs.foldl (detect_step codec detect_sub in_stream parent_format) acc) := by
  intro gs
  induction gs with
  | nil => intro acc h; exact h
  | cons g gs ih =>
    intro acc h
    rw [List.foldl_cons]
    exact ih _ (detect_step_ok codec M detect_sub hsub in_stream parent_format acc g h)

theorem detect_ok (codec : Codec) (arc_formats : List ArcFormat) (M : List OpenEvent) :
    ∀ (fuel : Nat) (s : IInStream) (a : List IInArchive) (f : List (List ArcFormat))
      (st : Opener), a.length = f.length → st.trace.filter OpenEvent.is_menu = M →
      DetectOK M (detect codec arc_formats fuel s a f st) := by
  intro fuel
  induction fuel with
  | zero => intro s a f st _ _; trivial
  | succ n ih =>
    intro s a f st hlen hm
    unfold detect
    exact detect_fold_ok codec M _ ih s _ arc_formats _ ⟨hlen, hm⟩

/-! ### The choice among the detected chains -/

theorem Archive_open_eq_select (codec : Codec) (fuel : Nat) (ar : ArchiveHandle)
    (trace : List OpenEvent) (stream : IInStream) (archives : List IInArchive)
    (formats : List (List ArcFormat)) (st2 : Opener)
    (hstream : codec.ArchiveOpenStream trace = .ok stream)
    (hdet : detect codec ar.arc_formats fuel stream [] []
      { error := ⟨0⟩, trace := trace ++ [.ArchiveOpenStream] }
        = some (.ok (archives, formats) st2)) :
    Archive_open codec fuel ar trace = Archive_open_select codec archives formats ar st2 := by
  simp [Archive_open, hstream, Opener.emit, hdet]

/-- C15. Let detection from the host stream end with the vectors `archives` and `formats`
(they have the same length, and detection shows no menu). With no chain `Archive::open`
returns `false` without a prompt. With exactly one chain it returns `true` with the
archive object and the chain of index 0, without a prompt. With more than one chain it
shows the menu once, with the chain names; on the answer -1 it returns `false` and leaves
`in_arc` and `formats` as they were, and on an answer `k` within the vectors it returns
`true` with `in_arc` and `formats` both taken from index `k`. -/
theorem Archive_open_policy (codec : Codec) (fuel : Nat) (ar : ArchiveHandle)
    (trace : List OpenEvent) (stream : IInStream) (archives : List IInArchive)
    (formats : List (List ArcFormat)) (st2 : Opener)
    (hstream : codec.ArchiveOpenStream trace = .ok stream)
    (hdet : detect codec ar.arc_formats fuel stream [] []
      { error := ⟨0⟩, trace := trace ++ [.ArchiveOpenStream] }
        = some (.ok (archives, formats) st2)) :
    st2.trace.filter OpenEvent.is_menu = trace.filter OpenEvent.is_menu ∧
    archives.length = formats.length ∧
    (formats = [] → Archive_open codec fuel ar trace = some (.ok (false, ar) st2)) ∧
    (∀ chain, formats = [chain] → ∃ archive, archives = [archive] ∧
      Archive_open codec fuel ar trace
        = some (.ok (true, { ar with in_arc := some archive, formats := chain }) st2)) ∧
    (1 < formats.length →
      (codec.menu st2.trace (formats.map chain_name) = -1 →
        Archive_open codec fuel ar trace
          = some (.ok (false, ar) (st2.emit (.menu (formats.map chain_name))))) ∧
      (∀ k : Nat, k < formats.length →
        codec.menu st2.trace (formats.map chain_name) = (k : Int) →
        ∃ archive chain, archives[k]? = some archive ∧ formats[k]? = some chain ∧
          Archive_open codec fuel ar trace
            = some (.ok (true, { ar with in_arc := some archive, formats := chain })
                (st2.emit (.menu (formats.map chain_name)))))) := by
  have hok := detect_ok codec ar.arc_formats (trace.filter OpenEvent.is_menu) fuel stream [] []
    { error := ⟨0⟩, trace := trace ++ [.ArchiveOpenStream] } rfl
    (by simp [List.filter_append, OpenEvent.is_menu])
  rw [hdet] at hok
  obtain ⟨hlen, hmenus⟩ := hok
  have hopen := Archive_open_eq_select codec fuel ar trace stream archives formats st2
    hstream hdet
  refine ⟨hmenus, hlen, ?_, ?_, ?_⟩
  · intro hf
    rw [hopen, hf]
    simp [Archive_open_select]
  · intro chain hf
    subst hf
    match archives, hlen with
    | [archive], _ =>
      exact ⟨archive, rfl, by rw [hopen]; simp [Archive_open_select]⟩
  · intro hgt
    have h0 : formats.length ≠ 0 := by omega
    have h1 : formats.length ≠ 1 := by omega
    refine ⟨?_, ?_⟩
    · intro hm
      rw [hopen]
      simp [Archive_open_select, h0, h1, hm]
    · intro k hk hm
      have hka : k < archives.length := by omega
      refine ⟨archives[k], formats[k], List.getElem?_eq_getElem hka,
        List.getElem?_eq_getElem hk, ?_⟩
      rw [hopen]
      have hne : (k : Int) ≠ -1 := by omega
      have hnn : ¬ (k : Int) < 0 := by omega
      simp [Archive_open_select, h0, h1, hm, hne, hnn, List.getElem?_eq_getElem hka,
        List.getElem?_eq_getElem hk]

/-- C15, exercised: `codec1` with the nested archive detects the chains `A` and `A->B`,
and the menu answers 1. -/
theorem Archive_open_policy_witness :
    ∃ archive chain, [10, 20][1]? = some archive ∧
      [[format_A], [format_A, format_B]][1]? = some chain ∧
      Archive_open (codec1 true 1) 3 handle0 []
        = some (.ok (true, { handle0 with in_arc := some archive, formats := chain })
            (Opener.emit
              { error := ⟨0⟩,
                trace := [.ArchiveOpenStream,
                  .open_archive format_A 0, .CreateObject format_A, .Seek 0, .Open 10 0,
                  .GetArchiveProperty 10, .GetNumberOfItems 10, .QueryInterface_GetStream 10,
                  .GetStream 10 0, .QueryInterface_IInStream 7,
                  .open_archive format_A 5, .CreateObject format_A, .Seek 5, .Open 10 5,
                  .open_archive format_B 5, .CreateObject format_B, .Seek 5, .Open 20 5,
                  .GetArchiveProperty 20,
                  .open_archive format_B 0, .CreateObject format_B, .Seek 0, .Open 20 0] }
              (.menu ([[format_A], [format_A, format_B]].map chain_name)))) :=
  ((Archive_open_policy (codec1 true 1) 3 handle0 [] 0 [10, 20]
    [[format_A], [format_A, format_B]] _ rfl rfl).2.2.2.2 (by decide)).2 1 (by decide) rfl

/-! ### A single matching format -/

theorem detect_fold_rejects (codec : Codec)
    (detect_sub : IInStream → List IInArchive → List (List ArcFormat) → Opener →
      Option (ORes Detected))
    (in_stream : IInStream) (parent_format : List ArcFormat) (archives : List IInArchive)
    (formats : List (List ArcFormat)) :
    ∀ (gs : List ArcFormat), (∀ g ∈ gs, Rejects codec g in_stream) → ∀ st : Opener,
      ∃ st1, gs.foldl (detect_step codec detect_sub in_stream parent_format)
          (some (.ok (archives, formats) st))
        = some (.ok (archives, formats) st1) := by
  intro gs
  induction gs with
  | nil => intro _ st; exact ⟨st, rfl⟩
  | cons g gs ih =>
    intro hrej st
    obtain ⟨archive, st1, h1⟩ := hrej g (List.mem_cons_self _ _) st
    obtain ⟨st2, h2⟩ := ih (fun g2 hg2 => hrej g2 (List.mem_cons_of_mem _ hg2)) st1
    refine ⟨st2, ?_⟩
    rw [List.foldl_cons]
    simp only [detect_step, h1]
    exact h2

/-- C16, as amended. When the archive file gives the host stream, exactly one registered
format `f` opens it, every other registered format answers that the stream is not of its
format (`open_archive` returns `false` and raises nothing), and no chain continues inside
the archive that `f` opens (it has no primary embedded substream, or every registered
format answers in the same way that the substream is not of its format), detection yields
the single chain `[f]`, and `Archive::open` selects it and returns `true` without showing
the menu. -/
theorem detect_single_chain (codec : Codec) (fuel : Nat) (ar : ArchiveHandle)
    (trace : List OpenEvent) (stream : IInStream) (before after : List ArcFormat)
    (f : ArcFormat)
    (hstream : codec.ArchiveOpenStream trace = .ok stream)
    (hfmts : ar.arc_formats = before ++ f :: after)
    (hrej : ∀ g ∈ before ++ after, Rejects codec g stream)
    (hopen : Opens codec f stream)
    (hin : NoChainInside codec ar.arc_formats f stream)
    (hfuel : 2 ≤ fuel) :
    ∃ archive st2,
      detect codec ar.arc_formats fuel stream [] []
          { error := ⟨0⟩, trace := trace ++ [.ArchiveOpenStream] }
        = some (.ok ([archive], [[f]]) st2) ∧
      Archive_open codec fuel ar trace
        = some (.ok (true, { ar with in_arc := some archive, formats := [f] }) st2) ∧
      st2.trace.filter OpenEvent.is_menu = trace.filter OpenEvent.is_menu := by
  obtain ⟨n, rfl⟩ : ∃ n, fuel = n + 2 := ⟨fuel - 2, by omega⟩
  have hdet : ∃ archive st2,
      detect codec ar.arc_formats (n + 2) stream [] []
          { error := ⟨0⟩, trace := trace ++ [.ArchiveOpenStream] }
        = some (.ok ([archive], [[f]]) st2) := by
    rw [detect]
    conv => enter [1, archive, 1, st2, 1, 3]; rw [hfmts]
    obtain ⟨st1, h1⟩ := detect_fold_rejects codec (detect codec ar.arc_formats (n + 1)) stream
      [] [] [] before (fun g hg => hrej g (List.mem_append_left _ hg))
      { error := ⟨0⟩, trace := trace ++ [.ArchiveOpenStream] }
    obtain ⟨archive, st1b, h2⟩ := hopen st1
    have hstep : ∃ st3, detect_step codec (detect codec ar.arc_formats (n + 1)) stream []
        (some (.ok ([], []) st1)) f = some (.ok ([archive], [[f]]) st3) := by
      simp only [detect_step, h2]
      rcases hin st1 archive st1b h2 with hnone | ⟨sub_stream, hsome, hsubrej⟩
      · rcases hs : open_sub_stream codec archive st1b with ⟨sub, st2⟩
        rw [hs] at hnone
        simp only at hnone
        subst hnone
        exact ⟨st2, by simp⟩
      · rcases hs : open_sub_stream codec archive st1b with ⟨sub, st2⟩
        rw [hs] at hsome
        simp only at hsome
        subst hsome
        obtain ⟨st3, h3⟩ := detect_fold_rejects codec (detect codec ar.arc_formats n)
          sub_stream ((([] : List (List ArcFormat)) ++ [[] ++ [f]]).getLast?.getD [])
          ([] ++ [archive]) ([] ++ [[] ++ [f]]) ar.arc_formats hsubrej st2
        refine ⟨st3, ?_⟩
        simp only []
        rw [detect]
        simpa using h3
    obtain ⟨st3, h3⟩ := hstep
    obtain ⟨st4, h4⟩ := detect_fold_rejects codec (detect codec ar.arc_formats (n + 1)) stream
      [] [archive] [[f]] after (fun g hg => hrej g (List.mem_append_right _ hg)) st3
    refine ⟨archive, st4, ?_⟩
    simp only [List.getLast?_nil, Option.getD_none] at *
    rw [List.foldl_append, h1, List.foldl_cons, h3]
    exact h4
  obtain ⟨archive, st2, hd⟩ := hdet
  have hok := detect_ok codec ar.arc_formats (trace.filter OpenEvent.is_menu) (n + 2) stream
    [] [] { error := ⟨0⟩, trace := trace ++ [.ArchiveOpenStream] } rfl
    (by simp [List.filter_append, OpenEvent.is_menu])
  rw [hd] at hok
  refine ⟨archive, st2, hd, ?_, hok.2⟩
  rw [Archive_open_eq_select codec (n + 2) ar trace stream [archive] [[f]] st2 hstream hd]
  simp [Archive_open_select]

theorem codec1_opens_A (nested : Bool) (choice : Int) :
    Opens (codec1 nested choice) format_A 0 := by
  intro st
  exact ⟨10, _, rfl⟩

theorem codec1_rejects_B (nested : Bool) (choice : Int) :
    Rejects (codec1 nested choice) format_B 0 := by
  intro st
  exact ⟨20, _, rfl⟩

/-- C16, exercised: `A` alone opens the host stream of `codec1` and its archive has no
embedded substream. -/
theorem detect_single_chain_witness :
    ∃ archive st2,
      detect (codec1 false 0) handle0.arc_formats 2 0 [] []
          { error := ⟨0⟩, trace := [] ++ [.ArchiveOpenStream] }
        = some (.ok ([archive], [[format_A]]) st2) ∧
      Archive_open (codec1 false 0) 2 handle0 []
        = some (.ok (true, { handle0 with in_arc := some archive, formats := [format_A] })
            st2) ∧
      st2.trace.filter OpenEvent.is_menu = ([] : List OpenEvent).filter OpenEvent.is_menu :=
  detect_single_chain (codec1 false 0) 2 handle0 [] 0 [] [format_B] format_A rfl rfl
    (by
      intro g hg
      simp only [List.nil_append, List.mem_singleton] at hg
      subst hg
      exact codec1_rejects_B false 0)
    (codec1_opens_A false 0)
    (by
      intro st archive st1 _
      left
      simp [open_sub_stream, codec1])
    (by decide)

/-- C16 as stated fails, in two ways. In `codec1` with the nested archive exactly one
registered format opens the host stream: `A` opens it and `B` rejects it. The archive that
`A` opens exposes a primary embedded substream that `B` opens, so detection yields the two
chains `A` and `A->B`, and `Archive::open` shows the menu with these two names. In
`codec_hard_failure`, without any nesting, `A` again is the only one of the three
registered formats that opens the host stream and `B` rejects it, but `Open` for `C` ends
with the failure `E_FAIL`: `open_archive` raises it (line 211), `detect` does not catch it,
and `Archive::open` raises `E_FAIL` with no chain at all. -/
theorem detect_nested_prompts_counterexample :
    Opens (codec1 true 0) format_A 0 ∧ Rejects (codec1 true 0) format_B 0 ∧
    (detect (codec1 true 0) handle0.arc_formats 3 0 [] []
        { error := ⟨0⟩, trace := [.ArchiveOpenStream] }).map
          (fun r => match r with
            | .ok d _ => some d
            | .fail _ _ => none)
      = some (some ([10, 20], [[format_A], [format_A, format_B]])) ∧
    (Archive_open (codec1 true 0) 3 handle0 []).map
        (fun r => (match r with
            | .ok v _ => some v
            | .fail _ _ => none,
          r.opener.trace.filter OpenEvent.is_menu))
      = some (some (true, { handle0 with in_arc := some 10, formats := [format_A] }),
          [.menu [['A'], ['A', '-', '>', 'B']]]) ∧
    Opens codec_hard_failure format_A 0 ∧ Rejects codec_hard_failure format_B 0 ∧
    (∀ st, ∃ e st1, open_archive codec_hard_failure format_C 0 st = .fail e st1) ∧
    (Archive_open codec_hard_failure 3 handle_three []).map
        (fun r => match r with
          | .ok v _ => Except.ok v
          | .fail e _ => Except.error e)
      = some (.error ⟨E_FAIL⟩) := by
  refine ⟨codec1_opens_A true 0, codec1_rejects_B true 0, rfl, rfl, ?_, ?_, ?_, rfl⟩
  · intro st
    exact ⟨10, _, rfl⟩
  · intro st
    exact ⟨20, _, rfl⟩
  · intro st
    by_cases h : st.error.code = 0
    · refine ⟨⟨E_FAIL⟩, { st with trace := st.trace ++ [.open_archive format_C 0,
        .CreateObject format_C, .Seek 0, .Open 30 0] }, ?_⟩
      simp [open_archive, codec_hard_failure, codec1, format_C, FAILED, E_FAIL, Opener.emit, h]
    · refine ⟨st.error, { st with trace := st.trace ++ [.open_archive format_C 0,
        .CreateObject format_C, .Seek 0, .Open 30 0] }, ?_⟩
      simp [open_archive, codec_hard_failure, codec1, format_C, FAILED, E_FAIL, Opener.emit, h]

/-! ### Reopening -/

/-- C19 fails on the code. In `codec1` with the nested archive, detection finds the chain
`A->B` by opening `A` on the host stream 0 and `B` on the embedded substream 5 of the
archive just opened. `reopen` of that stored chain opens `A` on stream 0, obtains the
substream, and then opens `B` on the host stream 0 again (line 246 passes `stream`, not
`sub_stream`); `B` does not open the host stream, so `reopen` raises `E_FAIL` instead of
reopening the chain. -/
theorem reopen_passes_host_stream :
    (detect (codec1 true 1) handle0.arc_formats 3 0 [] []
        { error := ⟨0⟩, trace := [.ArchiveOpenStream] }).map
          (fun r => (match r with
              | .ok d _ => some d
              | .fail _ _ => none,
            open_archive_calls r.opener.trace))
      = some (some ([10, 20], [[format_A], [format_A, format_B]]),
          [(format_A, 0), (format_A, 5), (format_B, 5), (format_B, 0)]) ∧
    (Archive_reopen (codec1 true 1)
        { handle0 with in_arc := some 20, formats := [format_A, format_B] } []).map
          (fun r => (match r with
              | .ok _ _ => none
              | .fail e _ => some e,
            open_archive_calls r.opener.trace,
            r.opener.trace))
      = some (some ⟨E_FAIL⟩, [(format_A, 0), (format_B, 0)],
          [.ArchiveOpenStream,
           .open_archive format_A 0, .CreateObject format_A, .Seek 0, .Open 10 0,
           .GetArchiveProperty 10, .GetNumberOfItems 10, .QueryInterface_GetStream 10,
           .GetStream 10 0, .QueryInterface_IInStream 7,
           .open_archive format_B 0, .CreateObject format_B, .Seek 0, .Open 20 0]) ∧
    [(format_A, 0), (format_B, 0)] ≠ [(format_A, 0), (format_B, 5)] := by
  refine ⟨rfl, rfl, by decide⟩

end Arclite
